import Mathlib

/-!
Verification of the mcp-framework client/agent core: a shallow embedding of
the wire-protocol model (`src/protocol.rs`), the error taxonomy
(`src/error.rs`), the transports (`src/connectors/http.rs`,
`src/connectors/stdio.rs`, `src/connectors/base.rs`), the session cache layer
(`src/session.rs`), the multi-endpoint client (`src/client.rs`) and the agent
loop (`src/agent.rs`), with theorems settling the specification claims.
-/

namespace Mcp

/-- JSON values, modelling `serde_json::Value`. -/
inductive Json where
  | null : Json
  | bool (b : Bool) : Json
  | num (n : Int) : Json
  | str (s : String) : Json
  | arr (items : List Json) : Json
  | obj (fields : List (String × Json)) : Json

/-- The error taxonomy of `src/error.rs` (`enum Error`).  `SerializationError`
carries the display string of the wrapped `serde_json::Error`. -/
inductive Error where
  | InvalidRequest (s : String)
  | InvalidParams (s : String)
  | MethodNotFound (s : String)
  | InternalError (s : String)
  | ServerError (s : String)
  | ToolNotFound (s : String)
  | ResourceNotFound (s : String)
  | SerializationError (s : String)
  | RequestError (s : String)
  | Timeout
  | ConnectionError (s : String)
  | LLMError (s : String)
  | Unknown (s : String)
deriving DecidableEq

/-- Display rendering of `Error`, generated by the error attributes of
`src/error.rs` (used through `e.to_string()` in the agent loop). -/
def Error.toMessage : Error → String
  | .InvalidRequest s => "Invalid request: " ++ s
  | .InvalidParams s => "Invalid params: " ++ s
  | .MethodNotFound s => "Method not found: " ++ s
  | .InternalError s => "Internal error: " ++ s
  | .ServerError s => "Server error: " ++ s
  | .ToolNotFound s => "Tool not found: " ++ s
  | .ResourceNotFound s => "Resource not found: " ++ s
  | .SerializationError s => "Serialization error: " ++ s
  | .RequestError s => "Request error: " ++ s
  | .Timeout => "Timeout"
  | .ConnectionError s => "Connection error: " ++ s
  | .LLMError s => "LLM error: " ++ s
  | .Unknown s => "Unknown error: " ++ s

/-- Discriminator for the serialization-kind error (claim C4 talks about the
kind of the resulting error, not its payload). -/
def Error.isSerialization : Error → Bool
  | .SerializationError _ => true
  | _ => false

/-- Discriminator for the connection-kind error. -/
def Error.isConnection : Error → Bool
  | .ConnectionError _ => true
  | _ => false

-- ---------------------------------------------------------------------------
-- Wire protocol model (`src/protocol.rs`)
-- ---------------------------------------------------------------------------

/-- Model of `JsonRpcRequest` from `src/protocol.rs`: `jsonrpc`, `id`, `method`,
`params : Option<Value>`. -/
structure JsonRpcRequest where
  jsonrpc : String
  id : String
  method : String
  params : Option Json

/-- Model of `JsonRpcError` from `src/protocol.rs`. -/
structure JsonRpcError where
  code : Int
  message : String
  data : Option Json

/-- Model of `JsonRpcResponse` from `src/protocol.rs`: `result` and `error` are both
optional. -/
structure JsonRpcResponse where
  jsonrpc : String
  id : String
  result : Option Json
  error : Option JsonRpcError

/-- Model of `serialize_params` from `src/protocol.rs`: the custom serializer that
writes `Some(v)` as `v` and `None` as the empty JSON object (never omits the
field). -/
def serialize_params : Option Json → Json
  | some v => v
  | none => Json.obj []

/-- Serialization of `JsonRpcRequest` as derived by serde: fields in
declaration order, with `params` going through `serialize_params`. -/
def serializeRequest (r : JsonRpcRequest) : Json :=
  Json.obj
    [ ("jsonrpc", Json.str r.jsonrpc)
    , ("id", Json.str r.id)
    , ("method", Json.str r.method)
    , ("params", serialize_params r.params) ]

/-- Field lookup in a JSON object. -/
def getField (fields : List (String × Json)) (k : String) : Option Json :=
  (fields.find? (fun p => p.fst = k)).map Prod.snd

/-- Extract a JSON string. -/
def Json.asString : Json → Option String
  | .str s => some s
  | _ => none

/-- Deserialization of `JsonRpcRequest` as derived by serde: the three string
fields are required; `params : Option<Value>` is `None` when the field is
missing or `null`, and `Some v` otherwise. -/
def deserializeRequest : Json → Option JsonRpcRequest
  | .obj fields => do
    let jsonrpc ← (getField fields "jsonrpc").bind Json.asString
    let id ← (getField fields "id").bind Json.asString
    let method ← (getField fields "method").bind Json.asString
    let params :=
      match getField fields "params" with
      | none => none
      | some Json.null => none
      | some v => some v
    pure ⟨jsonrpc, id, method, params⟩
  | _ => none

-- ---------------------------------------------------------------------------
-- Catalog descriptors (`src/protocol.rs` and the rmcp re-exports)
-- ---------------------------------------------------------------------------

/-- Model of `ToolInputSchema` from `src/protocol.rs`. -/
structure ToolInputSchema where
  schema_type : String
  properties : List (String × Json)
  required : Option (List String)

/-- Model of `Tool` from `src/protocol.rs`. -/
structure Tool where
  name : String
  description : Option String
  input_schema : Option ToolInputSchema

/-- Model of `Resource` is re-exported from the rmcp SDK (not part of this
repository).  Modelled from the spec: a ResourceDescriptor is a name-keyed
catalog entry; the rmcp type additionally carries the `uri` field that
`src/session.rs` uses as the cache key, plus description/mime-type. -/
structure Resource where
  uri : String
  name : String
  description : Option String
  mime_type : Option String

/-- Model of `PromptArgument` from `src/protocol.rs`. -/
structure PromptArgument where
  name : String
  description : Option String
  required : Option Bool

/-- Model of `Prompt` is re-exported from the rmcp SDK (not part of this repository).
Modelled from the spec: a PromptDescriptor is a name-keyed catalog entry with
a description and arguments. -/
structure Prompt where
  name : String
  description : Option String
  arguments : Option (List PromptArgument)

/-- Model of `ResultContent` from `src/protocol.rs`. -/
inductive ResultContent where
  | text (t : String)
  | image (data : String) (mime_type : String)

/-- Model of `ToolResult` from `src/protocol.rs`. -/
structure ToolResult where
  id : Option String
  content : List ResultContent
  is_error : Option Bool

/-- Model of `ImageSource` from `src/protocol.rs`. -/
inductive ImageSource where
  | base64 (data : String) (media_type : String)
  | url (u : String)

/-- Model of `Role` from `src/protocol.rs`. -/
inductive Role where
  | user
  | assistant
deriving DecidableEq

/-- Model of `ContentBlock` from `src/protocol.rs`. -/
inductive ContentBlock where
  | text (t : String)
  | toolUse (id : String) (name : String) (input : Json)
  | toolResult (tool_use_id : String) (content : List ResultContent)
      (is_error : Option Bool)
  | image (source : ImageSource)

/-- Model of `Message` from `src/protocol.rs`. -/
structure Message where
  role : Role
  content : List ContentBlock

/-- Model of `Message::user` from `src/protocol.rs`. -/
def Message.user (text : String) : Message :=
  ⟨Role.user, [ContentBlock.text text]⟩

/-- Model of `Message::assistant` from `src/protocol.rs`. -/
def Message.assistant (text : String) : Message :=
  ⟨Role.assistant, [ContentBlock.text text]⟩

-- ---------------------------------------------------------------------------
-- Connectors (`src/connectors/http.rs`, `src/connectors/stdio.rs`)
-- ---------------------------------------------------------------------------

/-- Behaviour of the environment at one `HttpConnector::send_request` call:
the POST either fails with an I/O error (reqwest `send()` error), succeeds
with a body that fails to parse as a `JsonRpcResponse` (reqwest `json()`
error), or succeeds with a parsed envelope. -/
inductive HttpWire where
  | ioError (msg : String)
  | malformed (msg : String)
  | envelope (resp : JsonRpcResponse)

/-- Model of `HttpConnector::send_request` from `src/connectors/http.rs`: refuses when
not connected; maps the POST error to `ConnectionError`; maps the body-parse
error to `ConnectionError` as well; returns the parsed envelope otherwise. -/
def httpSendRequest (connected : Bool) (wire : HttpWire) :
    Except Error JsonRpcResponse :=
  if !connected then
    Except.error (Error.ConnectionError "Not connected")
  else
    match wire with
    | .ioError m => Except.error (Error.ConnectionError m)
    | .malformed m => Except.error (Error.ConnectionError m)
    | .envelope r => Except.ok r

/-- Behaviour of the environment at one `StdioConnector::send_request` call:
writing the request line fails, reading the response line fails, the line
fails to parse as a `JsonRpcResponse` (`serde_json::from_str` error), or a
parsed envelope is read. -/
inductive StdioWire where
  | writeError (msg : String)
  | readError (msg : String)
  | malformed (msg : String)
  | line (resp : JsonRpcResponse)

/-- Model of `StdioConnector::send_request` from `src/connectors/stdio.rs`: refuses
when not connected or when no child process is running; every failure
(write, read, and the `serde_json::from_str` parse failure) is mapped to
`ConnectionError`. -/
def stdioSendRequest (connected : Bool) (childRunning : Bool)
    (wire : StdioWire) : Except Error JsonRpcResponse :=
  if !connected then
    Except.error (Error.ConnectionError "Not connected")
  else if !childRunning then
    Except.error (Error.ConnectionError "No process running")
  else
    match wire with
    | .writeError m => Except.error (Error.ConnectionError m)
    | .readError m => Except.error (Error.ConnectionError m)
    | .malformed m => Except.error (Error.ConnectionError m)
    | .line r => Except.ok r

/-- The envelope unwrapping of the default `Connector::initialize` in
`src/connectors/base.rs`, applied to the result of `send_request`: a
transport error propagates; a `result` field is returned; otherwise an
`error` field becomes `ServerError(error.message)`; an envelope with neither
becomes `InternalError`. -/
def initializeOp (sendResult : Except Error JsonRpcResponse) :
    Except Error Json :=
  match sendResult with
  | .error e => Except.error e
  | .ok resp =>
    match resp.result with
    | some r => Except.ok r
    | none =>
      match resp.error with
      | some err => Except.error (Error.ServerError err.message)
      | none =>
        Except.error (Error.InternalError "No result or error in response")

-- ---------------------------------------------------------------------------
-- Session cache layer (`src/session.rs`)
-- ---------------------------------------------------------------------------

/-- Keyed insertion into an association list, modelling
`HashMap::insert` (replaces an existing mapping for the key, otherwise
appends). -/
def insertKeyed {α : Type} (k : String) (v : α) :
    List (String × α) → List (String × α)
  | [] => [(k, v)]
  | (k0, v0) :: rest =>
    if k0 = k then (k, v) :: rest else (k0, v0) :: insertKeyed k v rest

/-- Lookup in an association list, modelling `HashMap::get`. -/
def lookupKeyed {α : Type} (k : String) : List (String × α) → Option α
  | [] => none
  | (k0, v0) :: rest => if k0 = k then some v0 else lookupKeyed k rest

/-- Build a map from a listing by inserting each entry under its key, in
order — the loop bodies of `refresh_tools` / `refresh_resources` /
`refresh_prompts` in `src/session.rs` after `cache.clear()`. -/
def buildMap {α : Type} (key : α → String) (items : List α) :
    List (String × α) :=
  items.foldl (fun acc item => insertKeyed (key item) item acc) []

/-- The three caches owned by a `Session` (`src/session.rs`). -/
structure SessionCaches where
  tools_cache : List (String × Tool)
  resources_cache : List (String × Resource)
  prompts_cache : List (String × Prompt)

/-- The empty caches of `Session::new`. -/
def SessionCaches.empty : SessionCaches := ⟨[], [], []⟩

/-- Model of `Session::refresh_tools` from `src/session.rs`, with the outcome of
`connector.list_tools()` made explicit: on failure the `?` propagates before
the cache is touched; on success the cache is cleared and refilled keyed by
`tool.name`. -/
def refresh_tools (listing : Except Error (List Tool)) (s : SessionCaches) :
    Except Error Unit × SessionCaches :=
  match listing with
  | .error e => (Except.error e, s)
  | .ok tools =>
    (Except.ok (), { s with tools_cache := buildMap Tool.name tools })

/-- Model of `Session::refresh_resources` from `src/session.rs`: on success the cache
is cleared and refilled keyed by `resource.uri`. -/
def refresh_resources (listing : Except Error (List Resource))
    (s : SessionCaches) : Except Error Unit × SessionCaches :=
  match listing with
  | .error e => (Except.error e, s)
  | .ok resources =>
    (Except.ok (),
      { s with resources_cache := buildMap Resource.uri resources })

/-- Model of `Session::refresh_prompts` from `src/session.rs`: on success the cache is
cleared and refilled keyed by `prompt.name`. -/
def refresh_prompts (listing : Except Error (List Prompt))
    (s : SessionCaches) : Except Error Unit × SessionCaches :=
  match listing with
  | .error e => (Except.error e, s)
  | .ok prompts =>
    (Except.ok (), { s with prompts_cache := buildMap Prompt.name prompts })

/-- Model of `Session::get_tools` from `src/session.rs`: a snapshot copy of the cached
values. -/
def get_tools (s : SessionCaches) : List Tool :=
  s.tools_cache.map Prod.snd

-- ---------------------------------------------------------------------------
-- Multi-endpoint client (`src/client.rs`)
-- ---------------------------------------------------------------------------

/-- The multi-endpoint session table (`sessions : DashMap<String, Session>`),
modelled as an association list whose keys are unique (a `DashMap` holds at
most one entry per key). -/
abbrev SessionTable : Type := List (String × SessionCaches)

/-- Model of `McpClient::list_all_tools` from `src/client.rs`: iterate over the
session names; for each, attempt `refresh_tools` with the outcome that the
endpoint named `n` produces (`env n`); on success push `(name, get_tools)`;
on failure only log a warning and skip the endpoint.  Returns the aggregated
pairs together with the updated table.  The surrounding function always
returns `Ok(all_tools)`. -/
def list_all_tools_aux (env : String → Except Error (List Tool)) :
    SessionTable → List (String × List Tool) × SessionTable
  | [] => ([], [])
  | (n, c) :: rest =>
    match refresh_tools (env n) c with
    | (.ok _, c2) =>
      let (ps, rs) := list_all_tools_aux env rest
      ((n, get_tools c2) :: ps, (n, c2) :: rs)
    | (.error _, _) =>
      let (ps, rs) := list_all_tools_aux env rest
      (ps, (n, c) :: rs)

/-- The result of `McpClient::list_all_tools`: the bulk call itself never
fails. -/
def list_all_tools (env : String → Except Error (List Tool))
    (table : SessionTable) :
    Except Error (List (String × List Tool)) × SessionTable :=
  let (ps, rs) := list_all_tools_aux env table
  (Except.ok ps, rs)

/-- Removal of an entry from the session table, modelling
`DashMap::remove(name)` (keys are unique, so removing every occurrence of
the key coincides with removing the entry). -/
def removeKey (name : String) (table : SessionTable) : SessionTable :=
  table.filter (fun p => p.fst ≠ name)

/-- Model of `McpClient::close_session` from `src/client.rs`: if the name has an
entry, the entry is removed from the table and `session.disconnect()` runs —
whose error propagates through the `?` operator; if the name has no entry the
call returns `Ok(())`.  Here `disco n` is the outcome produced for
`disconnect` by the connector of the endpoint named `n`. -/
def close_session (disco : String → Except Error Unit) (name : String)
    (table : SessionTable) : Except Error Unit × SessionTable :=
  match lookupKeyed name table with
  | some _ => (disco name, removeKey name table)
  | none => (Except.ok (), table)

/-- Model of `McpClient::close_all_sessions` from `src/client.rs`: collect the
current names, close each with `close_session(...).ok()` — every error
ignored — and return `Ok(())`. -/
def close_all_sessions_aux (disco : String → Except Error Unit) :
    List String → SessionTable → SessionTable
  | [], table => table
  | n :: rest, table =>
    close_all_sessions_aux disco rest (close_session disco n table).snd

/-- The full `close_all_sessions`: always returns `Ok(())`. -/
def close_all_sessions (disco : String → Except Error Unit)
    (table : SessionTable) : Except Error Unit × SessionTable :=
  (Except.ok (), close_all_sessions_aux disco (table.map Prod.fst) table)

-- ---------------------------------------------------------------------------
-- Agent loop (`src/agent.rs`)
-- ---------------------------------------------------------------------------

/-- Model of `StopReason` from `src/agent.rs`. -/
inductive StopReason where
  | endTurn
  | toolUse
  | maxTokens
deriving DecidableEq

/-- Model of `AgentState` from `src/agent.rs`. -/
inductive AgentState where
  | ready
  | running
  | waitingForToolResult
  | done
  | error
deriving DecidableEq

/-- Model of `LLMResponse` from `src/agent.rs`. -/
structure LLMResponse where
  content : List ContentBlock
  stop_reason : StopReason

/-- Model of `AgentEvent` from `src/agent.rs`. -/
inductive AgentEvent where
  | started
  | llmCall (iteration : Nat)
  | textChunk (text : String)
  | toolCallStarted (tool_name : String)
  | toolCallCompleted (tool_name : String) (result : String)
  | toolCallFailed (tool_name : String) (error : String)
  | iterationComplete (iteration : Nat)
  | finished (response : String)
  | failed (error : String)

/-- Environment of the agent, as oracles indexed by call counters: the outcome
of `client.list_tools()` at the k-th loop iteration (1-based), the outcome of
`llm.call(messages, tools)` at the k-th iteration, and the outcome of
`client.call_tool(name, input)` at the j-th tool execution (0-based).  Any
behaviour of the real `McpClient` and `LLMProvider` over one run is captured
by some such oracle assignment. -/
structure Env where
  listTools : Nat → Except Error (List Tool)
  llm : Nat → List Message → List Tool → Except Error LLMResponse
  callTool : Nat → String → Json → Except Error ToolResult

/-- Outcome of processing the content blocks of one turn in `Agent::run`
(`src/agent.rs` lines 144-179): the grown conversation, the accumulated
response, the `has_tool_use` and `assistant_message_added` flags, the tool
call counter, and — for the plain variant — the error that aborted the block
loop through the `?` on `call_tool`, if any. -/
structure TurnOut where
  conv : List Message
  resp : String
  hasToolUse : Bool
  added : Bool
  toolCalls : Nat
  err : Option Error

/-- The `for content in &llm_response.content` loop of the plain
`Agent::run`: text is accumulated; a tool-use block pushes the assistant
message holding all blocks of this turn (at most once), executes the tool —
propagating a failure immediately — and pushes a one-block user message
wrapping the correlated result; other block kinds are skipped. -/
def processBlocks (callTool : Nat → String → Json → Except Error ToolResult)
    (allContent : List ContentBlock) :
    List ContentBlock → List Message → String → Bool → Bool → Nat → TurnOut
  | [], conv, resp, htu, added, tc => ⟨conv, resp, htu, added, tc, none⟩
  | ContentBlock.text t :: rest, conv, resp, htu, added, tc =>
    processBlocks callTool allContent rest conv (resp ++ t) htu added tc
  | ContentBlock.toolUse tid nm inp :: rest, conv, resp, _, added, tc =>
    let conv1 :=
      if added then conv else conv ++ [⟨Role.assistant, allContent⟩]
    match callTool tc nm inp with
    | .error e => ⟨conv1, resp, true, true, tc + 1, some e⟩
    | .ok tr =>
      processBlocks callTool allContent rest
        (conv1 ++
          [⟨Role.user, [ContentBlock.toolResult tid tr.content tr.is_error]⟩])
        resp true true (tc + 1)
  | ContentBlock.toolResult _ _ _ :: rest, conv, resp, htu, added, tc =>
    processBlocks callTool allContent rest conv resp htu added tc
  | ContentBlock.image _ :: rest, conv, resp, htu, added, tc =>
    processBlocks callTool allContent rest conv resp htu added tc

/-- The outcome of one whole `Agent::run` call: the returned `Result`, the
final `AgentState`, the final conversation, and how many LLM calls were
made. -/
structure RunOut where
  result : Except Error String
  state : AgentState
  conv : List Message
  llmCalls : Nat

/-- The `while iterations < max_iterations && state == Running` loop of the
plain `Agent::run`, by recursion on the remaining budget
(`fuel = max_iterations - iterations`; the function is entered with
`state == Running`).  The fuel-0 case is the loop exiting on the iteration
bound with the post-loop `iterations >= max_iterations` check firing.  Note
the source checks `iterations >= max_iterations` after the loop regardless of
the state, so the `Done` exit also turns into an error when it happens on the
final permitted iteration. -/
def agentLoop (env : Env) (maxIter : Nat) (disallowed : List String) :
    Nat → Nat → Nat → Nat → List Message → String → RunOut
  | 0, _, llmCalls, _, conv, _ =>
    ⟨Except.error (Error.InternalError "Max iterations reached"),
      AgentState.error, conv, llmCalls⟩
  | fuel + 1, iter, llmCalls, tc, conv, resp =>
    let iter1 := iter + 1
    match env.listTools iter1 with
    | .error e => ⟨Except.error e, AgentState.running, conv, llmCalls⟩
    | .ok allTools =>
      let tools := allTools.filter (fun t => !(disallowed.contains t.name))
      match env.llm iter1 conv tools with
      | .error e =>
        ⟨Except.error (Error.LLMError e.toMessage), AgentState.running, conv,
          llmCalls + 1⟩
      | .ok r =>
        let t := processBlocks env.callTool r.content r.content conv resp
          false false tc
        match t.err with
        | some e =>
          ⟨Except.error e, AgentState.waitingForToolResult, t.conv,
            llmCalls + 1⟩
        | none =>
          if t.hasToolUse = false ∨ r.stop_reason = StopReason.endTurn then
            let conv2 :=
              if t.added then t.conv
              else t.conv ++ [⟨Role.assistant, r.content⟩]
            if maxIter ≤ iter1 then
              ⟨Except.error (Error.InternalError "Max iterations reached"),
                AgentState.error, conv2, llmCalls + 1⟩
            else
              ⟨Except.ok t.resp, AgentState.done, conv2, llmCalls + 1⟩
          else
            agentLoop env maxIter disallowed fuel iter1 (llmCalls + 1)
              t.toolCalls t.conv t.resp

/-- Model of `Agent::run` from `src/agent.rs`: set state to Running, append the user
prompt message to the conversation, then run the loop. -/
def agentRun (env : Env) (maxIter : Nat) (disallowed : List String)
    (conv0 : List Message) (prompt : String) : RunOut :=
  agentLoop env maxIter disallowed maxIter 0 0 0
    (conv0 ++ [Message.user prompt]) ""

/-- Model of `result_text` of `run_with_events`: the text parts of a tool result,
joined with newlines. -/
def resultText (content : List ResultContent) : String :=
  String.intercalate "\n"
    (content.filterMap fun c =>
      match c with
      | ResultContent.text t => some t
      | _ => none)

/-- Outcome of processing the blocks of one turn in `Agent::run_with_events`,
which additionally accumulates emitted events and never aborts: a failing
tool execution is caught and recorded as an error-flagged result message. -/
structure TurnOutE where
  conv : List Message
  resp : String
  hasToolUse : Bool
  added : Bool
  toolCalls : Nat
  events : List AgentEvent

/-- The block loop of `Agent::run_with_events` (`src/agent.rs` lines
297-373): like the plain one, but emitting events, and converting a tool
execution failure into a `ToolCallFailed` event plus an error-flagged
`ToolResult` user message, then continuing. -/
def processBlocksE (callTool : Nat → String → Json → Except Error ToolResult)
    (allContent : List ContentBlock) :
    List ContentBlock → List Message → String → Bool → Bool → Nat →
      List AgentEvent → TurnOutE
  | [], conv, resp, htu, added, tc, evs => ⟨conv, resp, htu, added, tc, evs⟩
  | ContentBlock.text t :: rest, conv, resp, htu, added, tc, evs =>
    processBlocksE callTool allContent rest conv (resp ++ t) htu added tc
      (evs ++ [AgentEvent.textChunk t])
  | ContentBlock.toolUse tid nm inp :: rest, conv, resp, _, added, tc, evs =>
    let evs1 := evs ++ [AgentEvent.toolCallStarted nm]
    let conv1 :=
      if added then conv else conv ++ [⟨Role.assistant, allContent⟩]
    match callTool tc nm inp with
    | .ok tr =>
      processBlocksE callTool allContent rest
        (conv1 ++
          [⟨Role.user, [ContentBlock.toolResult tid tr.content tr.is_error]⟩])
        resp true true (tc + 1)
        (evs1 ++ [AgentEvent.toolCallCompleted nm (resultText tr.content)])
    | .error e =>
      processBlocksE callTool allContent rest
        (conv1 ++
          [⟨Role.user,
            [ContentBlock.toolResult tid
              [ResultContent.text ("Error: " ++ e.toMessage)] (some true)]⟩])
        resp true true (tc + 1)
        (evs1 ++ [AgentEvent.toolCallFailed nm e.toMessage])
  | ContentBlock.toolResult _ _ _ :: rest, conv, resp, htu, added, tc, evs =>
    processBlocksE callTool allContent rest conv resp htu added tc evs
  | ContentBlock.image _ :: rest, conv, resp, htu, added, tc, evs =>
    processBlocksE callTool allContent rest conv resp htu added tc evs

/-- The outcome of one whole `Agent::run_with_events` call. -/
structure RunOutE where
  result : Except Error String
  state : AgentState
  conv : List Message
  llmCalls : Nat
  events : List AgentEvent

/-- The iteration loop of `Agent::run_with_events`, mirroring `agentLoop`
with events. -/
def agentLoopE (env : Env) (maxIter : Nat) (disallowed : List String) :
    Nat → Nat → Nat → Nat → List Message → String → List AgentEvent →
      RunOutE
  | 0, _, llmCalls, _, conv, _, evs =>
    ⟨Except.error (Error.InternalError "Max iterations reached"),
      AgentState.error, conv, llmCalls,
      evs ++ [AgentEvent.failed "Max iterations reached"]⟩
  | fuel + 1, iter, llmCalls, tc, conv, resp, evs =>
    let iter1 := iter + 1
    let evs0 := evs ++ [AgentEvent.llmCall iter1]
    match env.listTools iter1 with
    | .error e => ⟨Except.error e, AgentState.running, conv, llmCalls, evs0⟩
    | .ok allTools =>
      let tools := allTools.filter (fun t => !(disallowed.contains t.name))
      match env.llm iter1 conv tools with
      | .error e =>
        ⟨Except.error (Error.LLMError e.toMessage), AgentState.running, conv,
          llmCalls + 1, evs0⟩
      | .ok r =>
        let t := processBlocksE env.callTool r.content r.content conv resp
          false false tc evs0
        let evs1 := t.events ++ [AgentEvent.iterationComplete iter1]
        if t.hasToolUse = false ∨ r.stop_reason = StopReason.endTurn then
          let conv2 :=
            if t.added then t.conv
            else t.conv ++ [⟨Role.assistant, r.content⟩]
          if maxIter ≤ iter1 then
            ⟨Except.error (Error.InternalError "Max iterations reached"),
              AgentState.error, conv2, llmCalls + 1,
              evs1 ++ [AgentEvent.failed "Max iterations reached"]⟩
          else
            ⟨Except.ok t.resp, AgentState.done, conv2, llmCalls + 1,
              evs1 ++ [AgentEvent.finished t.resp]⟩
        else
          agentLoopE env maxIter disallowed fuel iter1 (llmCalls + 1)
            t.toolCalls t.conv t.resp evs1

/-- Model of `Agent::run_with_events` from `src/agent.rs`: set state to Running,
append the user prompt message, emit `Started`, then run the loop. -/
def agentRunWithEvents (env : Env) (maxIter : Nat) (disallowed : List String)
    (conv0 : List Message) (prompt : String) : RunOutE :=
  agentLoopE env maxIter disallowed maxIter 0 0 0
    (conv0 ++ [Message.user prompt]) "" [AgentEvent.started]

-- ---------------------------------------------------------------------------
-- Derived notions and concrete instances used by the theorems
-- ---------------------------------------------------------------------------

/-- Whether the content of a turn contains a tool-invocation-request block —
the
condition computed into `has_tool_use` by the block loop. -/
def containsToolUse (blocks : List ContentBlock) : Bool :=
  blocks.any fun b =>
    match b with
    | ContentBlock.toolUse _ _ _ => true
    | _ => false

/-- Number of Assistant messages in a conversation. -/
def assistCount (c : List Message) : Nat :=
  (c.filter fun m => decide (m.role = Role.assistant)).length

/-- A turn that requests the `add` tool and stops with reason `ToolUse`. -/
def toolUseTurn : LLMResponse :=
  ⟨[ContentBlock.toolUse "call-1" "add" (Json.obj [])], StopReason.toolUse⟩

/-- An environment whose every turn requests a tool (stop reason `ToolUse`)
and whose catalog and tool calls always succeed. -/
def envToolLoop : Env :=
  ⟨fun _ => Except.ok [],
   fun _ _ _ => Except.ok toolUseTurn,
   fun _ _ _ => Except.ok ⟨none, [ResultContent.text "5"], none⟩⟩

/-- A turn that requests the `add` tool but stops with reason `EndTurn`. -/
def toolUseEndTurn : LLMResponse :=
  ⟨[ContentBlock.toolUse "call-1" "add" (Json.obj [])], StopReason.endTurn⟩

/-- An environment whose every turn contains a tool request but carries stop
reason `EndTurn`. -/
def envToolEndTurn : Env :=
  ⟨fun _ => Except.ok [],
   fun _ _ _ => Except.ok toolUseEndTurn,
   fun _ _ _ => Except.ok ⟨none, [ResultContent.text "5"], none⟩⟩

/-- A plain text turn with stop reason `EndTurn`. -/
def textTurn : LLMResponse :=
  ⟨[ContentBlock.text "hi"], StopReason.endTurn⟩

/-- An environment whose first (and every) turn is plain text. -/
def envTextTurn : Env :=
  ⟨fun _ => Except.ok [],
   fun _ _ _ => Except.ok textTurn,
   fun _ _ _ => Except.ok ⟨none, [], none⟩⟩

/-- An environment whose first turn requests tool `nm` (request id `tid`,
input `inp`), whose tool execution fails with `e`, and whose subsequent turns
are the plain text `t2` — used to compare the two run variants on a failing
tool execution. -/
def envToolFailure (tid nm : String) (inp : Json) (e : Error) (t2 : String) :
    Env :=
  ⟨fun _ => Except.ok [],
   fun k _ _ =>
     if k = 1 then
       Except.ok ⟨[ContentBlock.toolUse tid nm inp], StopReason.toolUse⟩
     else Except.ok ⟨[ContentBlock.text t2], StopReason.endTurn⟩,
   fun _ _ _ => Except.error e⟩

/-- A resource whose display name differs from its URI. -/
def sampleResource : Resource :=
  ⟨"file:///tmp/a.txt", "alpha", none, none⟩

/-- The correlation discipline of one message relative to the messages
before it: if it is a User message, then any ToolInvocationResult block it
carries is its only block, and the correlation id references a
ToolInvocationRequest block of some prior Assistant message. -/
def resultOk (prior : List Message) (msg : Message) : Prop :=
  msg.role = Role.user →
    ∀ tid cont ie, ContentBlock.toolResult tid cont ie ∈ msg.content →
      msg.content = [ContentBlock.toolResult tid cont ie] ∧
      ∃ m ∈ prior, m.role = Role.assistant ∧
        ∃ nm inp, ContentBlock.toolUse tid nm inp ∈ m.content

/-- Every message of `c` appended beyond the prefix `base` obeys `resultOk`
with respect to the messages preceding it in `c`. -/
def appendedCorrelated (base c : List Message) : Prop :=
  ∀ p msg q, c = p ++ msg :: q → base.length ≤ p.length → resultOk p msg

-- ===========================================================================
-- Theorems
-- ===========================================================================

-- Helper lemmas on the keyed-map model ---------------------------------------

theorem insertKeyed_of_not_mem {α : Type} (k : String) (v : α)
    (l : List (String × α)) (h : ∀ p ∈ l, p.fst ≠ k) :
    insertKeyed k v l = l ++ [(k, v)] := by
  induction l with
  | nil => rfl
  | cons hd tl ih =>
    have hhd : hd.fst ≠ k := h hd (List.mem_cons_self hd tl)
    simp only [insertKeyed]
    rw [if_neg hhd, ih fun p hp => h p (List.mem_cons_of_mem hd hp)]
    rfl

theorem buildMap_of_nodup {α : Type} (key : α → String) (items : List α)
    (h : (items.map key).Nodup) :
    buildMap key items = items.map fun x => (key x, x) := by
  have main : ∀ (its : List α) (acc : List (String × α)),
      (its.map key).Nodup → (∀ p ∈ acc, p.fst ∉ its.map key) →
      its.foldl (fun a x => insertKeyed (key x) x a) acc =
        acc ++ its.map fun x => (key x, x) := by
    intro its
    induction its with
    | nil => intro acc _ _; simp
    | cons x rest ih =>
      intro acc hnd hacc
      have hx : ∀ p ∈ acc, p.fst ≠ key x := by
        intro p hp
        have := hacc p hp
        simp only [List.map_cons, List.mem_cons] at this
        exact fun hEq => this (Or.inl hEq)
      have hnd' : (rest.map key).Nodup := by
        simp only [List.map_cons, List.nodup_cons] at hnd
        exact hnd.2
      have hxnot : key x ∉ rest.map key := by
        simp only [List.map_cons, List.nodup_cons] at hnd
        exact hnd.1
      have hacc' : ∀ p ∈ acc ++ [(key x, x)], p.fst ∉ rest.map key := by
        intro p hp
        rcases List.mem_append.mp hp with hp | hp
        · have := hacc p hp
          simp only [List.map_cons, List.mem_cons] at this
          exact fun hm => this (Or.inr hm)
        · simp only [List.mem_singleton] at hp
          subst hp
          exact hxnot
      simp only [List.foldl_cons]
      rw [insertKeyed_of_not_mem (key x) x acc hx, ih _ hnd' hacc']
      simp
  have := main items [] h (by intro p hp; cases hp)
  simpa [buildMap] using this

theorem lookupKeyed_none_removeKey {α : Type} (k : String)
    (table : List (String × α)) (h : lookupKeyed k table = none) :
    table.filter (fun p => p.fst ≠ k) = table := by
  induction table with
  | nil => rfl
  | cons hd tl ih =>
    simp only [lookupKeyed] at h
    by_cases hk : hd.fst = k
    · rw [if_pos hk] at h; cases h
    · rw [if_neg hk] at h
      simp only [List.filter_cons]
      rw [if_pos (by simpa using hk), ih h]

-- C8 -------------------------------------------------------------------------

/-- C8: a request envelope constructed with absent params serializes with the
`params` field present and equal to the empty JSON object, and deserializing
that body yields a request whose params is the empty object. -/
theorem claim_C8 (r : JsonRpcRequest) (h : r.params = none) :
    serializeRequest r =
      Json.obj
        [ ("jsonrpc", Json.str r.jsonrpc), ("id", Json.str r.id)
        , ("method", Json.str r.method), ("params", Json.obj []) ] ∧
    deserializeRequest (serializeRequest r) =
      some ⟨r.jsonrpc, r.id, r.method, some (Json.obj [])⟩ := by
  obtain ⟨a, b, c, p⟩ := r
  simp only at h
  subst h
  exact ⟨rfl, rfl⟩

/-- Witness for C8 at the `tools/list` request with absent params. -/
theorem claim_C8_witness :
    serializeRequest ⟨"2.0", "id-1", "tools/list", none⟩ =
      Json.obj
        [ ("jsonrpc", Json.str "2.0"), ("id", Json.str "id-1")
        , ("method", Json.str "tools/list"), ("params", Json.obj []) ] ∧
    deserializeRequest (serializeRequest ⟨"2.0", "id-1", "tools/list", none⟩) =
      some ⟨"2.0", "id-1", "tools/list", some (Json.obj [])⟩ :=
  claim_C8 ⟨"2.0", "id-1", "tools/list", none⟩ rfl

-- C4 -------------------------------------------------------------------------

/-- C4 counterexample: on the HTTP transport (connected), a response body
that is not well-formed JSON for the envelope fails with a connection-kind
error, not a serialization-kind one. -/
theorem claim_C4_counterexample :
    httpSendRequest true (HttpWire.malformed "expected value at line 1") =
      Except.error (Error.ConnectionError "expected value at line 1") ∧
    (Error.ConnectionError "expected value at line 1").isSerialization
      = false :=
  ⟨rfl, rfl⟩

/-- C4 as amended: for both transports, I/O failures and malformed response
bodies both surface as connection-kind errors (never serialization-kind),
while a response envelope carrying an error object surfaces as a server-kind
error from the derived operations. -/
theorem claim_C4_amended (m : String) :
    httpSendRequest true (HttpWire.ioError m) =
      Except.error (Error.ConnectionError m) ∧
    httpSendRequest true (HttpWire.malformed m) =
      Except.error (Error.ConnectionError m) ∧
    stdioSendRequest true true (StdioWire.writeError m) =
      Except.error (Error.ConnectionError m) ∧
    stdioSendRequest true true (StdioWire.readError m) =
      Except.error (Error.ConnectionError m) ∧
    stdioSendRequest true true (StdioWire.malformed m) =
      Except.error (Error.ConnectionError m) ∧
    (∀ v rid code emsg d,
      initializeOp
          (Except.ok ⟨v, rid, none, some ⟨code, emsg, d⟩⟩) =
        Except.error (Error.ServerError emsg)) ∧
    (∀ e : Error, initializeOp (Except.error e) = Except.error e) :=
  ⟨rfl, rfl, rfl, rfl, rfl, fun _ _ _ _ _ => rfl, fun _ => rfl⟩

-- C5 -------------------------------------------------------------------------

/-- C5 counterexample: `refresh_resources` keys the cache by the resource
URI, not by its name — after a successful refresh with a resource named
`alpha` at URI `file:///tmp/a.txt`, the cache has no entry under the name. -/
theorem claim_C5_counterexample :
    (refresh_resources (Except.ok [sampleResource])
        SessionCaches.empty).snd.resources_cache =
      [("file:///tmp/a.txt", sampleResource)] ∧
    lookupKeyed "alpha"
        (refresh_resources (Except.ok [sampleResource])
          SessionCaches.empty).snd.resources_cache = none :=
  ⟨rfl, rfl⟩

/-- C5 as amended: a successful refresh replaces the corresponding cache
wholesale with exactly the freshly listed entries — tools and prompts keyed
by name, resources keyed by URI — and a failed refresh leaves the caches
exactly as they were. -/
theorem claim_C5 (s : SessionCaches) (tl : List Tool) (rl : List Resource)
    (pl : List Prompt) (e : Error)
    (htl : (tl.map Tool.name).Nodup) (hrl : (rl.map Resource.uri).Nodup)
    (hpl : (pl.map Prompt.name).Nodup) :
    refresh_tools (Except.ok tl) s =
      (Except.ok (), { s with tools_cache := tl.map fun t => (t.name, t) }) ∧
    refresh_resources (Except.ok rl) s =
      (Except.ok (),
        { s with resources_cache := rl.map fun r => (r.uri, r) }) ∧
    refresh_prompts (Except.ok pl) s =
      (Except.ok (),
        { s with prompts_cache := pl.map fun p => (p.name, p) }) ∧
    refresh_tools (Except.error e) s = (Except.error e, s) ∧
    refresh_resources (Except.error e) s = (Except.error e, s) ∧
    refresh_prompts (Except.error e) s = (Except.error e, s) := by
  refine ⟨?_, ?_, ?_, rfl, rfl, rfl⟩
  · simp [refresh_tools, buildMap_of_nodup Tool.name tl htl]
  · simp [refresh_resources, buildMap_of_nodup Resource.uri rl hrl]
  · simp [refresh_prompts, buildMap_of_nodup Prompt.name pl hpl]

/-- Witness for C5 on a one-entry listing of each kind. -/
theorem claim_C5_witness :
    refresh_tools (Except.ok [⟨"add", none, none⟩]) SessionCaches.empty =
      (Except.ok (),
        { SessionCaches.empty with
            tools_cache := [("add", ⟨"add", none, none⟩)] }) ∧
    refresh_resources (Except.ok [sampleResource]) SessionCaches.empty =
      (Except.ok (),
        { SessionCaches.empty with
            resources_cache := [("file:///tmp/a.txt", sampleResource)] }) ∧
    refresh_prompts (Except.ok [⟨"greet", none, none⟩]) SessionCaches.empty =
      (Except.ok (),
        { SessionCaches.empty with
            prompts_cache := [("greet", ⟨"greet", none, none⟩)] }) ∧
    refresh_tools (Except.error Error.Timeout) SessionCaches.empty =
      (Except.error Error.Timeout, SessionCaches.empty) ∧
    refresh_resources (Except.error Error.Timeout) SessionCaches.empty =
      (Except.error Error.Timeout, SessionCaches.empty) ∧
    refresh_prompts (Except.error Error.Timeout) SessionCaches.empty =
      (Except.error Error.Timeout, SessionCaches.empty) :=
  claim_C5 SessionCaches.empty [⟨"add", none, none⟩] [sampleResource]
    [⟨"greet", none, none⟩] Error.Timeout (by simp) (by simp) (by simp)

-- C6 -------------------------------------------------------------------------

/-- C6: with two live sessions where the tool refresh of the first endpoint
fails and that of the second succeeds, `list_all_tools` returns success
carrying exactly the `(name, tools)` pair of the healthy endpoint, with no
entry and no error for
the failing endpoint. -/
theorem claim_C6 (na nb : String) (h : na ≠ nb) (ca cb : SessionCaches)
    (e : Error) (ts : List Tool) :
    (list_all_tools (fun n => if n = na then Except.error e else Except.ok ts)
        [(na, ca), (nb, cb)]).fst =
      Except.ok [(nb, (buildMap Tool.name ts).map Prod.snd)] := by
  have hb : (nb = na) = False := by
    simp [eq_iff_iff, iff_false]
    exact Ne.symm h
  simp [list_all_tools, list_all_tools_aux, refresh_tools, hb, get_tools]

/-- Witness for C6: endpoints `db` (failing) and `web` (healthy, one tool). -/
theorem claim_C6_witness :
    (list_all_tools
        (fun n =>
          if n = "db" then Except.error (Error.ConnectionError "down")
          else Except.ok [⟨"fetch", none, none⟩])
        [("db", SessionCaches.empty), ("web", SessionCaches.empty)]).fst =
      Except.ok
        [("web", (buildMap Tool.name [⟨"fetch", none, none⟩]).map Prod.snd)] :=
  claim_C6 "db" "web" (by decide) SessionCaches.empty SessionCaches.empty
    (Error.ConnectionError "down") [⟨"fetch", none, none⟩]

-- C7 -------------------------------------------------------------------------

/-- C7 counterexample: `close_session` does not ignore a disconnect error —
with one live session whose disconnect fails, the call removes the entry but
returns the error rather than success. -/
theorem claim_C7_counterexample :
    close_session (fun _ => Except.error (Error.ConnectionError "peer reset"))
        "db" [("db", SessionCaches.empty)] =
      (Except.error (Error.ConnectionError "peer reset"), []) :=
  rfl

/-- C7 as amended: `close_session` always removes the named entry from the
session table, but it returns the disconnect outcome when a session was
present (a disconnect error propagates to the caller); only
`close_all_sessions` ignores errors during close — it always returns success
and leaves the table empty. -/
theorem claim_C7 (disco : String → Except Error Unit) (name : String)
    (table : SessionTable) :
    close_session disco name table =
      ((match lookupKeyed name table with
        | some _ => disco name
        | none => Except.ok ()), removeKey name table) ∧
    close_all_sessions disco table = (Except.ok (), []) := by
  constructor
  · cases hlk : lookupKeyed name table with
    | some c => simp [close_session, hlk]
    | none =>
      simp only [close_session, hlk, removeKey]
      rw [lookupKeyed_none_removeKey name table hlk]
  · have closeSnd : ∀ (n : String) (t : SessionTable),
        (close_session disco n t).snd = removeKey n t := by
      intro n t
      cases hlk : lookupKeyed n t with
      | some c => simp [close_session, hlk]
      | none =>
        simp only [close_session, hlk, removeKey]
        exact (lookupKeyed_none_removeKey n t hlk).symm
    have main : ∀ (names : List String) (t : SessionTable),
        (∀ p ∈ t, p.fst ∈ names) →
        close_all_sessions_aux disco names t = [] := by
      intro names
      induction names with
      | nil =>
        intro t ht
        cases t with
        | nil => rfl
        | cons hd tl => cases ht hd (List.mem_cons_self hd tl)
      | cons n rest ih =>
        intro t ht
        simp only [close_all_sessions_aux, closeSnd]
        apply ih
        intro p hp
        simp only [removeKey, List.mem_filter] at hp
        have := ht p hp.1
        simp only [List.mem_cons] at this
        rcases this with hEq | hm
        · exact absurd hEq (by simpa using hp.2)
        · exact hm
    simp only [close_all_sessions]
    rw [main (table.map Prod.fst) table
      (fun p hp => List.mem_map_of_mem Prod.fst hp)]

-- Conversation-extension lemmas ----------------------------------------------

theorem processBlocks_conv_extends
    (ct : Nat → String → Json → Except Error ToolResult)
    (allContent : List ContentBlock) :
    ∀ (blocks : List ContentBlock) (conv : List Message) (resp : String)
      (htu added : Bool) (tc : Nat),
    ∃ rest,
      (processBlocks ct allContent blocks conv resp htu added tc).conv =
        conv ++ rest := by
  intro blocks
  induction blocks with
  | nil =>
    intro conv resp htu added tc
    exact ⟨[], by simp [processBlocks]⟩
  | cons b bs ih =>
    intro conv resp htu added tc
    cases b with
    | text t => simpa [processBlocks] using ih conv (resp ++ t) htu added tc
    | toolUse tid nm inp =>
      by_cases ha : added = true
      · cases hct : ct tc nm inp with
        | error e => exact ⟨[], by simp [processBlocks, ha, hct]⟩
        | ok tr =>
          obtain ⟨r2, hr2⟩ := ih
            (conv ++
              [⟨Role.user,
                [ContentBlock.toolResult tid tr.content tr.is_error]⟩])
            resp true true (tc + 1)
          refine ⟨[⟨Role.user,
            [ContentBlock.toolResult tid tr.content tr.is_error]⟩] ++ r2, ?_⟩
          simp only [processBlocks, ha, hct, if_true]
          rw [hr2]
          simp
      · have ha' : added = false := by simpa using ha
        cases hct : ct tc nm inp with
        | error e =>
          exact ⟨[⟨Role.assistant, allContent⟩],
            by simp [processBlocks, ha', hct]⟩
        | ok tr =>
          obtain ⟨r2, hr2⟩ := ih
            (conv ++ [⟨Role.assistant, allContent⟩] ++
              [⟨Role.user,
                [ContentBlock.toolResult tid tr.content tr.is_error]⟩])
            resp true true (tc + 1)
          refine ⟨[⟨Role.assistant, allContent⟩] ++
            [⟨Role.user,
              [ContentBlock.toolResult tid tr.content tr.is_error]⟩] ++ r2, ?_⟩
          simp only [processBlocks, ha', hct, if_false, Bool.false_eq_true]
          rw [show conv ++ [(⟨Role.assistant, allContent⟩ : Message)] ++
              [(⟨Role.user,
                [ContentBlock.toolResult tid tr.content tr.is_error]⟩ :
                Message)] =
              (conv ++ [⟨Role.assistant, allContent⟩]) ++
              [⟨Role.user,
                [ContentBlock.toolResult tid tr.content tr.is_error]⟩]
            from by simp] at hr2
          rw [hr2]
          simp
    | toolResult a c ie =>
      simpa [processBlocks] using ih conv resp htu added tc
    | image src =>
      simpa [processBlocks] using ih conv resp htu added tc

theorem agentLoop_conv_extends (env : Env) (maxIter : Nat)
    (dis : List String) :
    ∀ (fuel iter llmCalls tc : Nat) (conv : List Message) (resp : String),
    ∃ rest,
      (agentLoop env maxIter dis fuel iter llmCalls tc conv resp).conv =
        conv ++ rest := by
  intro fuel
  induction fuel with
  | zero =>
    intro iter llmCalls tc conv resp
    exact ⟨[], by simp [agentLoop]⟩
  | succ f ih =>
    intro iter llmCalls tc conv resp
    simp only [agentLoop]
    cases hlt : env.listTools (iter + 1) with
    | error e => exact ⟨[], by simp⟩
    | ok allTools =>
      simp only []
      cases hllm : env.llm (iter + 1) conv
          (allTools.filter fun t => !(dis.contains t.name)) with
      | error e => exact ⟨[], by simp⟩
      | ok r =>
        simp only []
        obtain ⟨r1, hr1⟩ := processBlocks_conv_extends env.callTool r.content
          r.content conv resp false false tc
        cases hterr : (processBlocks env.callTool r.content r.content conv
            resp false false tc).err with
        | some e => exact ⟨r1, by simp [hterr, hr1]⟩
        | none =>
          simp only [hterr]
          by_cases hstop :
              (processBlocks env.callTool r.content r.content conv resp
                false false tc).hasToolUse = false ∨
              r.stop_reason = StopReason.endTurn
          · by_cases hadd : (processBlocks env.callTool r.content r.content
                conv resp false false tc).added = true
            · by_cases hle : maxIter ≤ iter + 1
              · exact ⟨r1, by simp [hstop, hadd, hle, hr1]⟩
              · exact ⟨r1, by simp [hstop, hadd, hle, hr1]⟩
            · have hadd' : (processBlocks env.callTool r.content r.content
                  conv resp false false tc).added = false := by
                simpa using hadd
              by_cases hle : maxIter ≤ iter + 1
              · exact ⟨r1 ++ [⟨Role.assistant, r.content⟩],
                  by simp [hstop, hadd', hle, hr1]⟩
              · exact ⟨r1 ++ [⟨Role.assistant, r.content⟩],
                  by simp [hstop, hadd', hle, hr1]⟩
          · obtain ⟨r2, hr2⟩ := ih (iter + 1) (llmCalls + 1)
              (processBlocks env.callTool r.content r.content conv resp
                false false tc).toolCalls
              (processBlocks env.callTool r.content r.content conv resp
                false false tc).conv
              (processBlocks env.callTool r.content r.content conv resp
                false false tc).resp
            refine ⟨r1 ++ r2, ?_⟩
            simp only [hstop, if_false]
            rw [hr2, hr1]
            simp

theorem processBlocksE_conv_extends
    (ct : Nat → String → Json → Except Error ToolResult)
    (allContent : List ContentBlock) :
    ∀ (blocks : List ContentBlock) (conv : List Message) (resp : String)
      (htu added : Bool) (tc : Nat) (evs : List AgentEvent),
    ∃ rest,
      (processBlocksE ct allContent blocks conv resp htu added tc evs).conv =
        conv ++ rest := by
  intro blocks
  induction blocks with
  | nil =>
    intro conv resp htu added tc evs
    exact ⟨[], by simp [processBlocksE]⟩
  | cons b bs ih =>
    intro conv resp htu added tc evs
    cases b with
    | text t =>
      simpa [processBlocksE] using
        ih conv (resp ++ t) htu added tc (evs ++ [AgentEvent.textChunk t])
    | toolUse tid nm inp =>
      have step : ∀ (conv1 : List Message) (msg : Message)
          (evs1 : List AgentEvent),
          (∃ s, conv1 = conv ++ s) →
          ∃ rest, (processBlocksE ct allContent bs (conv1 ++ [msg]) resp true
              true (tc + 1) evs1).conv = conv ++ rest := by
        intro conv1 msg evs1 ⟨s, hs⟩
        obtain ⟨r2, hr2⟩ := ih (conv1 ++ [msg]) resp true true (tc + 1) evs1
        refine ⟨s ++ [msg] ++ r2, ?_⟩
        rw [hr2, hs]
        simp
      by_cases ha : added = true
      · cases hct : ct tc nm inp with
        | ok tr =>
          have := step conv
            ⟨Role.user, [ContentBlock.toolResult tid tr.content tr.is_error]⟩
            ((evs ++ [AgentEvent.toolCallStarted nm]) ++
              [AgentEvent.toolCallCompleted nm (resultText tr.content)])
            ⟨[], by simp⟩
          simpa [processBlocksE, ha, hct] using this
        | error e =>
          have := step conv
            ⟨Role.user,
              [ContentBlock.toolResult tid
                [ResultContent.text ("Error: " ++ e.toMessage)] (some true)]⟩
            ((evs ++ [AgentEvent.toolCallStarted nm]) ++
              [AgentEvent.toolCallFailed nm e.toMessage])
            ⟨[], by simp⟩
          simpa [processBlocksE, ha, hct] using this
      · have ha' : added = false := by simpa using ha
        cases hct : ct tc nm inp with
        | ok tr =>
          have := step (conv ++ [⟨Role.assistant, allContent⟩])
            ⟨Role.user, [ContentBlock.toolResult tid tr.content tr.is_error]⟩
            ((evs ++ [AgentEvent.toolCallStarted nm]) ++
              [AgentEvent.toolCallCompleted nm (resultText tr.content)])
            ⟨[⟨Role.assistant, allContent⟩], rfl⟩
          simpa [processBlocksE, ha', hct] using this
        | error e =>
          have := step (conv ++ [⟨Role.assistant, allContent⟩])
            ⟨Role.user,
              [ContentBlock.toolResult tid
                [ResultContent.text ("Error: " ++ e.toMessage)] (some true)]⟩
            ((evs ++ [AgentEvent.toolCallStarted nm]) ++
              [AgentEvent.toolCallFailed nm e.toMessage])
            ⟨[⟨Role.assistant, allContent⟩], rfl⟩
          simpa [processBlocksE, ha', hct] using this
    | toolResult a c ie =>
      simpa [processBlocksE] using ih conv resp htu added tc evs
    | image src =>
      simpa [processBlocksE] using ih conv resp htu added tc evs

theorem agentLoopE_conv_extends (env : Env) (maxIter : Nat)
    (dis : List String) :
    ∀ (fuel iter llmCalls tc : Nat) (conv : List Message) (resp : String)
      (evs : List AgentEvent),
    ∃ rest,
      (agentLoopE env maxIter dis fuel iter llmCalls tc conv resp evs).conv =
        conv ++ rest := by
  intro fuel
  induction fuel with
  | zero =>
    intro iter llmCalls tc conv resp evs
    exact ⟨[], by simp [agentLoopE]⟩
  | succ f ih =>
    intro iter llmCalls tc conv resp evs
    simp only [agentLoopE]
    cases hlt : env.listTools (iter + 1) with
    | error e => exact ⟨[], by simp⟩
    | ok allTools =>
      simp only []
      cases hllm : env.llm (iter + 1) conv
          (allTools.filter fun t => !(dis.contains t.name)) with
      | error e => exact ⟨[], by simp⟩
      | ok r =>
        simp only []
        obtain ⟨r1, hr1⟩ := processBlocksE_conv_extends env.callTool r.content
          r.content conv resp false false tc
          (evs ++ [AgentEvent.llmCall (iter + 1)])
        by_cases hstop :
            (processBlocksE env.callTool r.content r.content conv resp
              false false tc
              (evs ++ [AgentEvent.llmCall (iter + 1)])).hasToolUse = false ∨
            r.stop_reason = StopReason.endTurn
        · by_cases hadd : (processBlocksE env.callTool r.content r.content
              conv resp false false tc
              (evs ++ [AgentEvent.llmCall (iter + 1)])).added = true
          · by_cases hle : maxIter ≤ iter + 1
            · exact ⟨r1, by simp [hstop, hadd, hle, hr1]⟩
            · exact ⟨r1, by simp [hstop, hadd, hle, hr1]⟩
          · have hadd' : (processBlocksE env.callTool r.content r.content
                conv resp false false tc
                (evs ++ [AgentEvent.llmCall (iter + 1)])).added = false := by
              simpa using hadd
            by_cases hle : maxIter ≤ iter + 1
            · exact ⟨r1 ++ [⟨Role.assistant, r.content⟩],
                by simp [hstop, hadd', hle, hr1]⟩
            · exact ⟨r1 ++ [⟨Role.assistant, r.content⟩],
                by simp [hstop, hadd', hle, hr1]⟩
        · obtain ⟨r2, hr2⟩ := ih (iter + 1) (llmCalls + 1)
            (processBlocksE env.callTool r.content r.content conv resp
              false false tc
              (evs ++ [AgentEvent.llmCall (iter + 1)])).toolCalls
            (processBlocksE env.callTool r.content r.content conv resp
              false false tc
              (evs ++ [AgentEvent.llmCall (iter + 1)])).conv
            (processBlocksE env.callTool r.content r.content conv resp
              false false tc
              (evs ++ [AgentEvent.llmCall (iter + 1)])).resp
            ((processBlocksE env.callTool r.content r.content conv resp
              false false tc
              (evs ++ [AgentEvent.llmCall (iter + 1)])).events ++
              [AgentEvent.iterationComplete (iter + 1)])
          refine ⟨r1 ++ r2, ?_⟩
          simp only [hstop, if_false]
          rw [hr2, hr1]
          simp

-- C10 ------------------------------------------------------------------------

/-- C10: both run variants append the User message containing the prompt to
the conversation right after entering, and that message is still in the
conversation whatever the run returns — the conversation is never rolled
back. -/
theorem claim_C10 (env : Env) (maxIter : Nat) (dis : List String)
    (conv0 : List Message) (prompt : String) :
    (∃ rest, (agentRun env maxIter dis conv0 prompt).conv =
      conv0 ++ [Message.user prompt] ++ rest) ∧
    (∃ rest, (agentRunWithEvents env maxIter dis conv0 prompt).conv =
      conv0 ++ [Message.user prompt] ++ rest) :=
  ⟨agentLoop_conv_extends env maxIter dis maxIter 0 0 0
      (conv0 ++ [Message.user prompt]) "",
    agentLoopE_conv_extends env maxIter dis maxIter 0 0 0
      (conv0 ++ [Message.user prompt]) "" [AgentEvent.started]⟩

-- C1 -------------------------------------------------------------------------

theorem processBlocks_ok
    (ct : Nat → String → Json → Except Error ToolResult)
    (h : ∀ j n i, ∃ tr, ct j n i = Except.ok tr)
    (allContent : List ContentBlock) :
    ∀ (blocks : List ContentBlock) (conv : List Message) (resp : String)
      (htu added : Bool) (tc : Nat),
    (processBlocks ct allContent blocks conv resp htu added tc).err = none ∧
    (processBlocks ct allContent blocks conv resp htu added tc).hasToolUse =
      (htu || containsToolUse blocks) := by
  intro blocks
  induction blocks with
  | nil =>
    intro conv resp htu added tc
    simp [processBlocks, containsToolUse]
  | cons b bs ih =>
    intro conv resp htu added tc
    cases b with
    | text t =>
      simpa [processBlocks, containsToolUse] using
        ih conv (resp ++ t) htu added tc
    | toolUse tid nm inp =>
      obtain ⟨tr, htr⟩ := h tc nm inp
      by_cases ha : added = true
      · have := ih
          (conv ++
            [⟨Role.user, [ContentBlock.toolResult tid tr.content tr.is_error]⟩])
          resp true true (tc + 1)
        simpa [processBlocks, ha, htr, containsToolUse] using this
      · have ha' : added = false := by simpa using ha
        have := ih
          ((conv ++ [⟨Role.assistant, allContent⟩]) ++
            [⟨Role.user, [ContentBlock.toolResult tid tr.content tr.is_error]⟩])
          resp true true (tc + 1)
        simpa [processBlocks, ha', htr, containsToolUse] using this
    | toolResult a c ie =>
      simpa [processBlocks, containsToolUse] using ih conv resp htu added tc
    | image src =>
      simpa [processBlocks, containsToolUse] using ih conv resp htu added tc

theorem agentLoop_allToolUse (env : Env) (maxIter : Nat) (dis : List String)
    (hlist : ∀ k, ∃ ts, env.listTools k = Except.ok ts)
    (hllm : ∀ k msgs tools, ∃ r, env.llm k msgs tools = Except.ok r ∧
      containsToolUse r.content = true ∧
      r.stop_reason ≠ StopReason.endTurn)
    (htool : ∀ j n i, ∃ tr, env.callTool j n i = Except.ok tr) :
    ∀ (fuel iter llmCalls tc : Nat) (conv : List Message) (resp : String),
    (agentLoop env maxIter dis fuel iter llmCalls tc conv resp).result =
      Except.error (Error.InternalError "Max iterations reached") ∧
    (agentLoop env maxIter dis fuel iter llmCalls tc conv resp).state =
      AgentState.error ∧
    (agentLoop env maxIter dis fuel iter llmCalls tc conv resp).llmCalls =
      llmCalls + fuel := by
  intro fuel
  induction fuel with
  | zero =>
    intro iter llmCalls tc conv resp
    simp [agentLoop]
  | succ f ih =>
    intro iter llmCalls tc conv resp
    obtain ⟨ts, hts⟩ := hlist (iter + 1)
    obtain ⟨r, hr, hct, hsr⟩ := hllm (iter + 1) conv
      (ts.filter fun t => !(dis.contains t.name))
    have hpb := processBlocks_ok env.callTool htool r.content r.content conv
      resp false false tc
    have hcond : ¬((processBlocks env.callTool r.content r.content conv resp
        false false tc).hasToolUse = false ∨
        r.stop_reason = StopReason.endTurn) := by
      rw [hpb.2]
      simp [hct, hsr]
    simp only [agentLoop, hts, hr, hpb.1, hcond, if_false]
    have := ih (iter + 1) (llmCalls + 1)
      (processBlocks env.callTool r.content r.content conv resp false false
        tc).toolCalls
      (processBlocks env.callTool r.content r.content conv resp false false
        tc).conv
      (processBlocks env.callTool r.content r.content conv resp false false
        tc).resp
    refine ⟨this.1, this.2.1, ?_⟩
    rw [this.2.2]
    omega

/-- C1 as amended: for maxIterations ≥ 1, a run in which the tool catalog
fetches succeed, every LLM turn contains a tool-invocation-request block and
stops with a reason other than EndTurn, and every tool execution succeeds,
terminates in state Error after exactly maxIterations LLM calls (never
maxIterations + 1), failing with the iteration-budget-exceeded internal
error rather than returning a truncated answer. -/
theorem claim_C1 (env : Env) (maxIter : Nat) (dis : List String)
    (conv0 : List Message) (prompt : String) (_hmax : 1 ≤ maxIter)
    (hlist : ∀ k, ∃ ts, env.listTools k = Except.ok ts)
    (hllm : ∀ k msgs tools, ∃ r, env.llm k msgs tools = Except.ok r ∧
      containsToolUse r.content = true ∧
      r.stop_reason ≠ StopReason.endTurn)
    (htool : ∀ j n i, ∃ tr, env.callTool j n i = Except.ok tr) :
    (agentRun env maxIter dis conv0 prompt).result =
      Except.error (Error.InternalError "Max iterations reached") ∧
    (agentRun env maxIter dis conv0 prompt).state = AgentState.error ∧
    (agentRun env maxIter dis conv0 prompt).llmCalls = maxIter := by
  have := agentLoop_allToolUse env maxIter dis hlist hllm htool maxIter 0 0 0
    (conv0 ++ [Message.user prompt]) ""
  exact ⟨this.1, this.2.1, by rw [agentRun, this.2.2]; omega⟩

/-- Witness for C1 on an environment whose every turn requests a tool with
stop reason ToolUse, at iteration budget 2. -/
theorem claim_C1_witness :
    (agentRun envToolLoop 2 [] [] "p").result =
      Except.error (Error.InternalError "Max iterations reached") ∧
    (agentRun envToolLoop 2 [] [] "p").state = AgentState.error ∧
    (agentRun envToolLoop 2 [] [] "p").llmCalls = 2 :=
  claim_C1 envToolLoop 2 [] [] "p" (by decide)
    (fun _ => ⟨[], rfl⟩)
    (fun _ _ _ => ⟨toolUseTurn, rfl, rfl, by decide⟩)
    (fun _ _ _ => ⟨⟨none, [ResultContent.text "5"], none⟩, rfl⟩)

/-- C1 counterexample: a run whose (single) turn contains a
tool-invocation-request block but stops with reason EndTurn terminates in
state Done after one LLM call, not in state Error after maxIterations = 2
calls — so the claim as stated fails. -/
theorem claim_C1_counterexample :
    containsToolUse toolUseEndTurn.content = true ∧
    (agentRun envToolEndTurn 2 [] [] "p").state = AgentState.done ∧
    (agentRun envToolEndTurn 2 [] [] "p").llmCalls = 1 ∧
    (agentRun envToolEndTurn 2 [] [] "p").result = Except.ok "" :=
  ⟨rfl, rfl, rfl, rfl⟩

-- C2 -------------------------------------------------------------------------

/-- C2, evaluated at the failing input: with maxIterations = 1 and a first
turn containing no tool-invocation-request block, the run reaches Done inside
the loop but the post-loop `iterations >= max_iterations` check overwrites
the state to Error and fails the run with the iteration-budget error —
contradicting the claimed (and specified) Done-and-success outcome. -/
theorem claim_C2_code_bug :
    containsToolUse textTurn.content = false ∧
    (agentRun envTextTurn 1 [] [] "p").state = AgentState.error ∧
    (agentRun envTextTurn 1 [] [] "p").result =
      Except.error (Error.InternalError "Max iterations reached") ∧
    (agentRun envTextTurn 1 [] [] "p").llmCalls = 1 ∧
    (agentRun envTextTurn 2 [] [] "p").state = AgentState.done ∧
    (agentRun envTextTurn 2 [] [] "p").result = Except.ok "hi" ∧
    (agentRun envTextTurn 2 [] [] "p").llmCalls = 1 :=
  ⟨rfl, rfl, rfl, rfl, rfl, rfl, rfl⟩

-- C3 -------------------------------------------------------------------------

/-- C3: when the tool execution fails during a tool-request block (request id
`tid`, tool `nm`, failure `e`), the plain run propagates the failure
immediately and aborts — the error surfaces to the caller and no
ToolInvocationResult is appended — whereas `run_with_events` catches it,
emits ToolCallFailed, appends a User message holding the error-flagged
ToolInvocationResult correlated by the request id, and continues the run to
completion. -/
theorem claim_C3 (conv0 : List Message) (prompt tid nm : String) (inp : Json)
    (e : Error) (t2 : String) :
    (agentRun (envToolFailure tid nm inp e t2) 3 [] conv0 prompt).result =
      Except.error e ∧
    (agentRun (envToolFailure tid nm inp e t2) 3 [] conv0 prompt).state =
      AgentState.waitingForToolResult ∧
    (agentRun (envToolFailure tid nm inp e t2) 3 [] conv0 prompt).conv =
      conv0 ++
        [Message.user prompt,
         ⟨Role.assistant, [ContentBlock.toolUse tid nm inp]⟩] ∧
    (agentRun (envToolFailure tid nm inp e t2) 3 [] conv0 prompt).llmCalls
      = 1 ∧
    (agentRunWithEvents (envToolFailure tid nm inp e t2) 3 [] conv0
        prompt).result = Except.ok t2 ∧
    (agentRunWithEvents (envToolFailure tid nm inp e t2) 3 [] conv0
        prompt).state = AgentState.done ∧
    (agentRunWithEvents (envToolFailure tid nm inp e t2) 3 [] conv0
        prompt).conv =
      conv0 ++
        [Message.user prompt,
         ⟨Role.assistant, [ContentBlock.toolUse tid nm inp]⟩,
         ⟨Role.user,
           [ContentBlock.toolResult tid
             [ResultContent.text ("Error: " ++ e.toMessage)] (some true)]⟩,
         ⟨Role.assistant, [ContentBlock.text t2]⟩] ∧
    (agentRunWithEvents (envToolFailure tid nm inp e t2) 3 [] conv0
        prompt).events =
      [AgentEvent.started, AgentEvent.llmCall 1,
       AgentEvent.toolCallStarted nm,
       AgentEvent.toolCallFailed nm e.toMessage,
       AgentEvent.iterationComplete 1, AgentEvent.llmCall 2,
       AgentEvent.textChunk t2, AgentEvent.iterationComplete 2,
       AgentEvent.finished t2] := by
  have h1 : (agentRun (envToolFailure tid nm inp e t2) 3 [] conv0
      prompt).conv =
      (conv0 ++ [Message.user prompt]) ++
        [⟨Role.assistant, [ContentBlock.toolUse tid nm inp]⟩] := rfl
  have h2 : (agentRunWithEvents (envToolFailure tid nm inp e t2) 3 [] conv0
      prompt).conv =
      ((((conv0 ++ [Message.user prompt]) ++
        [⟨Role.assistant, [ContentBlock.toolUse tid nm inp]⟩]) ++
        [⟨Role.user,
          [ContentBlock.toolResult tid
            [ResultContent.text ("Error: " ++ e.toMessage)] (some true)]⟩]) ++
        [⟨Role.assistant, [ContentBlock.text t2]⟩]) := rfl
  refine ⟨rfl, rfl, ?_, rfl, rfl, rfl, ?_, rfl⟩
  · rw [h1]; simp
  · rw [h2]; simp

-- C9 -------------------------------------------------------------------------

theorem appendedCorrelated_self (base : List Message) :
    appendedCorrelated base base := by
  intro p msg q heq hlen
  exfalso
  have : base.length = p.length + (1 + q.length) := by
    rw [heq]; simp [List.length_append]; omega
  omega

theorem appendedCorrelated_snoc (base c : List Message) (msg : Message)
    (h : appendedCorrelated base c) (hm : resultOk c msg) :
    appendedCorrelated base (c ++ [msg]) := by
  intro p m q heq hlen
  rcases List.eq_nil_or_concat q with hq | ⟨q0, x, hq⟩
  · subst hq
    have := List.append_inj' heq rfl
    obtain ⟨hcp, hmm⟩ := this
    have : m = msg := by simpa using hmm.symm
    subst this
    rw [← hcp]
    exact hm
  · subst hq
    have heq2 : c ++ [msg] = (p ++ m :: q0) ++ [x] := by
      rw [heq]; simp
    have := List.append_inj' heq2 rfl
    obtain ⟨hc, _⟩ := this
    exact h p m q0 hc hlen

theorem resultOk_assistant (prior : List Message)
    (blocks : List ContentBlock) :
    resultOk prior ⟨Role.assistant, blocks⟩ := by
  intro h
  exact Role.noConfusion h

theorem resultOk_user_text (prior : List Message) (t : String) :
    resultOk prior (Message.user t) := by
  intro _ tid cont ie hmem
  simp [Message.user] at hmem

theorem resultOk_wrapper (prior : List Message)
    (allContent : List ContentBlock) (tid nm : String) (inp : Json)
    (cont : List ResultContent) (ie : Option Bool)
    (hA : (⟨Role.assistant, allContent⟩ : Message) ∈ prior)
    (hBlk : ContentBlock.toolUse tid nm inp ∈ allContent) :
    resultOk prior ⟨Role.user, [ContentBlock.toolResult tid cont ie]⟩ := by
  intro _ tid2 cont2 ie2 hmem
  simp only [List.mem_singleton] at hmem
  cases hmem
  exact ⟨rfl, ⟨Role.assistant, allContent⟩, hA, rfl, nm, inp, hBlk⟩

theorem processBlocks_correlated
    (ct : Nat → String → Json → Except Error ToolResult)
    (allContent : List ContentBlock) (base : List Message) :
    ∀ (blocks : List ContentBlock) (conv : List Message) (resp : String)
      (htu added : Bool) (tc : Nat),
    (∀ b ∈ blocks, b ∈ allContent) →
    (added = true → (⟨Role.assistant, allContent⟩ : Message) ∈ conv) →
    appendedCorrelated base conv →
    appendedCorrelated base
      (processBlocks ct allContent blocks conv resp htu added tc).conv ∧
    ((processBlocks ct allContent blocks conv resp htu added tc).added =
        true →
      (⟨Role.assistant, allContent⟩ : Message) ∈
        (processBlocks ct allContent blocks conv resp htu added tc).conv) := by
  intro blocks
  induction blocks with
  | nil =>
    intro conv resp htu added tc _ hAdd hGood
    exact ⟨hGood, hAdd⟩
  | cons b bs ih =>
    intro conv resp htu added tc hBlocks hAdd hGood
    have hBlocks' : ∀ x ∈ bs, x ∈ allContent := fun x hx =>
      hBlocks x (List.mem_cons_of_mem b hx)
    cases b with
    | text t =>
      simpa [processBlocks] using
        ih conv (resp ++ t) htu added tc hBlocks' hAdd hGood
    | toolUse tid nm inp =>
      have hBlk : ContentBlock.toolUse tid nm inp ∈ allContent :=
        hBlocks _ (List.mem_cons_self _ _)
      by_cases ha : added = true
      · have hA : (⟨Role.assistant, allContent⟩ : Message) ∈ conv := hAdd ha
        cases hct : ct tc nm inp with
        | error e =>
          refine ⟨?_, ?_⟩ <;> simp [processBlocks, ha, hct, hGood, hA]
        | ok tr =>
          have hGood2 : appendedCorrelated base
              (conv ++
                [⟨Role.user,
                  [ContentBlock.toolResult tid tr.content tr.is_error]⟩]) :=
            appendedCorrelated_snoc base conv _ hGood
              (resultOk_wrapper conv allContent tid nm inp tr.content
                tr.is_error hA hBlk)
          have hA2 : (⟨Role.assistant, allContent⟩ : Message) ∈
              conv ++
                [⟨Role.user,
                  [ContentBlock.toolResult tid tr.content tr.is_error]⟩] :=
            List.mem_append_left _ hA
          have := ih
            (conv ++
              [⟨Role.user,
                [ContentBlock.toolResult tid tr.content tr.is_error]⟩])
            resp true true (tc + 1) hBlocks' (fun _ => hA2) hGood2
          simpa [processBlocks, ha, hct] using this
      · have ha' : added = false := by simpa using ha
        have hGood1 : appendedCorrelated base
            (conv ++ [⟨Role.assistant, allContent⟩]) :=
          appendedCorrelated_snoc base conv _ hGood
            (resultOk_assistant conv allContent)
        have hA1 : (⟨Role.assistant, allContent⟩ : Message) ∈
            conv ++ [⟨Role.assistant, allContent⟩] :=
          List.mem_append_right _ (List.mem_singleton.mpr rfl)
        cases hct : ct tc nm inp with
        | error e =>
          refine ⟨?_, ?_⟩ <;> simp [processBlocks, ha', hct, hGood1, hA1]
        | ok tr =>
          have hGood2 : appendedCorrelated base
              ((conv ++ [⟨Role.assistant, allContent⟩]) ++
                [⟨Role.user,
                  [ContentBlock.toolResult tid tr.content tr.is_error]⟩]) :=
            appendedCorrelated_snoc base _ _ hGood1
              (resultOk_wrapper _ allContent tid nm inp tr.content
                tr.is_error hA1 hBlk)
          have hA2 : (⟨Role.assistant, allContent⟩ : Message) ∈
              (conv ++ [⟨Role.assistant, allContent⟩]) ++
                [⟨Role.user,
                  [ContentBlock.toolResult tid tr.content tr.is_error]⟩] :=
            List.mem_append_left _ hA1
          have := ih
            ((conv ++ [⟨Role.assistant, allContent⟩]) ++
              [⟨Role.user,
                [ContentBlock.toolResult tid tr.content tr.is_error]⟩])
            resp true true (tc + 1) hBlocks' (fun _ => hA2) hGood2
          simpa [processBlocks, ha', hct] using this
    | toolResult a c ie =>
      simpa [processBlocks] using
        ih conv resp htu added tc hBlocks' hAdd hGood
    | image src =>
      simpa [processBlocks] using
        ih conv resp htu added tc hBlocks' hAdd hGood

theorem agentLoop_correlated (env : Env) (maxIter : Nat) (dis : List String)
    (base : List Message) :
    ∀ (fuel iter llmCalls tc : Nat) (conv : List Message) (resp : String),
    appendedCorrelated base conv →
    appendedCorrelated base
      (agentLoop env maxIter dis fuel iter llmCalls tc conv resp).conv := by
  intro fuel
  induction fuel with
  | zero =>
    intro iter llmCalls tc conv resp hGood
    simpa [agentLoop] using hGood
  | succ f ih =>
    intro iter llmCalls tc conv resp hGood
    simp only [agentLoop]
    cases hlt : env.listTools (iter + 1) with
    | error e => simpa using hGood
    | ok allTools =>
      simp only []
      cases hllm : env.llm (iter + 1) conv
          (allTools.filter fun t => !(dis.contains t.name)) with
      | error e => simpa using hGood
      | ok r =>
        simp only []
        have hpb := processBlocks_correlated env.callTool r.content base
          r.content conv resp false false tc (fun _ hb => hb)
          (fun h => Bool.noConfusion h) hGood
        cases hterr : (processBlocks env.callTool r.content r.content conv
            resp false false tc).err with
        | some e => simpa [hterr] using hpb.1
        | none =>
          simp only [hterr]
          by_cases hstop :
              (processBlocks env.callTool r.content r.content conv resp
                false false tc).hasToolUse = false ∨
              r.stop_reason = StopReason.endTurn
          · have hGood2 : appendedCorrelated base
                (if (processBlocks env.callTool r.content r.content conv resp
                    false false tc).added = true then
                  (processBlocks env.callTool r.content r.content conv resp
                    false false tc).conv
                else
                  (processBlocks env.callTool r.content r.content conv resp
                    false false tc).conv ++ [⟨Role.assistant, r.content⟩]) := by
              by_cases hadd : (processBlocks env.callTool r.content r.content
                  conv resp false false tc).added = true
              · simpa [hadd] using hpb.1
              · rw [if_neg hadd]
                exact appendedCorrelated_snoc base _ _ hpb.1
                  (resultOk_assistant _ r.content)
            by_cases hle : maxIter ≤ iter + 1
            · simpa [hstop, hle] using hGood2
            · simpa [hstop, hle] using hGood2
          · simp only [hstop, if_false]
            exact ih (iter + 1) (llmCalls + 1) _ _ _ hpb.1

theorem assistCount_snoc (c : List Message) (m : Message) :
    assistCount (c ++ [m]) =
      assistCount c + (if m.role = Role.assistant then 1 else 0) := by
  by_cases h : m.role = Role.assistant
  · simp [assistCount, List.filter_append, h]
  · simp [assistCount, List.filter_append, h]

theorem processBlocks_count
    (ct : Nat → String → Json → Except Error ToolResult)
    (allContent : List ContentBlock) :
    ∀ (blocks : List ContentBlock) (conv : List Message) (resp : String)
      (htu added : Bool) (tc : Nat),
    (added = true →
      (processBlocks ct allContent blocks conv resp htu added tc).added =
        true ∧
      assistCount
          (processBlocks ct allContent blocks conv resp htu added tc).conv =
        assistCount conv) ∧
    (added = false →
      ((processBlocks ct allContent blocks conv resp htu added tc).added =
          false →
        assistCount
            (processBlocks ct allContent blocks conv resp htu added
              tc).conv = assistCount conv) ∧
      assistCount
          (processBlocks ct allContent blocks conv resp htu added tc).conv ≤
        assistCount conv + 1) := by
  intro blocks
  induction blocks with
  | nil =>
    intro conv resp htu added tc
    constructor
    · intro ha; exact ⟨by simp [processBlocks, ha], by simp [processBlocks]⟩
    · intro ha; exact ⟨fun _ => by simp [processBlocks], by simp [processBlocks]⟩
  | cons b bs ih =>
    intro conv resp htu added tc
    cases b with
    | text t =>
      simpa [processBlocks] using ih conv (resp ++ t) htu added tc
    | toolUse tid nm inp =>
      cases added with
      | true =>
        cases hct : ct tc nm inp with
        | error e =>
          refine ⟨fun _ => ⟨?_, ?_⟩, fun hfalse => Bool.noConfusion hfalse⟩
          · simp [processBlocks, hct]
          · simp [processBlocks, hct]
        | ok tr =>
          have h2 := (ih
            (conv ++
              [⟨Role.user,
                [ContentBlock.toolResult tid tr.content tr.is_error]⟩])
            resp true true (tc + 1)).1 rfl
          refine ⟨fun _ => ⟨?_, ?_⟩, fun hfalse => Bool.noConfusion hfalse⟩
          · simpa [processBlocks, hct] using h2.1
          · have := h2.2
            rw [assistCount_snoc] at this
            simpa [processBlocks, hct] using this
      | false =>
        cases hct : ct tc nm inp with
        | error e =>
          refine ⟨fun htrue => Bool.noConfusion htrue, fun _ => ⟨?_, ?_⟩⟩
          · intro hof
            exfalso
            have : (processBlocks ct allContent
                (ContentBlock.toolUse tid nm inp :: bs) conv resp htu false
                tc).added = true := by
              simp [processBlocks, hct]
            rw [this] at hof
            cases hof
          · have hc1 : assistCount (conv ++ [⟨Role.assistant, allContent⟩]) =
                assistCount conv + 1 := by
              rw [assistCount_snoc]; simp
            simp [processBlocks, hct, hc1]
        | ok tr =>
          have h2 := (ih
            (conv ++
              [(⟨Role.assistant, allContent⟩ : Message),
               ⟨Role.user,
                [ContentBlock.toolResult tid tr.content tr.is_error]⟩])
            resp true true (tc + 1)).1 rfl
          have hcnt : assistCount
              (conv ++
                [(⟨Role.assistant, allContent⟩ : Message),
                 ⟨Role.user,
                  [ContentBlock.toolResult tid tr.content tr.is_error]⟩]) =
              assistCount conv + 1 := by
            rw [show conv ++
                [(⟨Role.assistant, allContent⟩ : Message),
                 ⟨Role.user,
                  [ContentBlock.toolResult tid tr.content tr.is_error]⟩] =
                (conv ++ [⟨Role.assistant, allContent⟩]) ++
                  [⟨Role.user,
                    [ContentBlock.toolResult tid tr.content tr.is_error]⟩]
              from by simp]
            rw [assistCount_snoc, assistCount_snoc]
            simp
          refine ⟨fun htrue => Bool.noConfusion htrue, fun _ => ⟨?_, ?_⟩⟩
          · intro hof
            exfalso
            have : (processBlocks ct allContent
                (ContentBlock.toolUse tid nm inp :: bs) conv resp htu false
                tc).added = true := by
              simpa [processBlocks, hct] using h2.1
            rw [this] at hof
            cases hof
          · have := h2.2
            rw [hcnt] at this
            simp only [processBlocks, hct]
            simpa [processBlocks, hct] using le_of_eq this
    | toolResult a c ie =>
      simpa [processBlocks] using ih conv resp htu added tc
    | image src =>
      simpa [processBlocks] using ih conv resp htu added tc

theorem agentLoop_count (env : Env) (maxIter : Nat) (dis : List String) :
    ∀ (fuel iter llmCalls tc : Nat) (conv : List Message) (resp : String),
    assistCount
        (agentLoop env maxIter dis fuel iter llmCalls tc conv resp).conv +
      llmCalls ≤
    assistCount conv +
      (agentLoop env maxIter dis fuel iter llmCalls tc conv resp).llmCalls := by
  intro fuel
  induction fuel with
  | zero =>
    intro iter llmCalls tc conv resp
    simp [agentLoop]
  | succ f ih =>
    intro iter llmCalls tc conv resp
    simp only [agentLoop]
    cases hlt : env.listTools (iter + 1) with
    | error e => simp
    | ok allTools =>
      simp only []
      cases hllm : env.llm (iter + 1) conv
          (allTools.filter fun t => !(dis.contains t.name)) with
      | error e => simp
      | ok r =>
        simp only []
        have hpb := (processBlocks_count env.callTool r.content r.content
          conv resp false false tc).2 rfl
        cases hterr : (processBlocks env.callTool r.content r.content conv
            resp false false tc).err with
        | some e =>
          simp only [hterr]
          have := hpb.2
          omega
        | none =>
          simp only [hterr]
          by_cases hstop :
              (processBlocks env.callTool r.content r.content conv resp
                false false tc).hasToolUse = false ∨
              r.stop_reason = StopReason.endTurn
          · have hconv2 : assistCount
                (if (processBlocks env.callTool r.content r.content conv resp
                    false false tc).added = true then
                  (processBlocks env.callTool r.content r.content conv resp
                    false false tc).conv
                else
                  (processBlocks env.callTool r.content r.content conv resp
                    false false tc).conv ++
                    [⟨Role.assistant, r.content⟩]) ≤
                assistCount conv + 1 := by
              by_cases hadd : (processBlocks env.callTool r.content r.content
                  conv resp false false tc).added = true
              · rw [if_pos hadd]
                exact hpb.2
              · rw [if_neg hadd, assistCount_snoc]
                have heq := hpb.1 (by simpa using hadd)
                simp [heq]
            by_cases hle : maxIter ≤ iter + 1
            · simp only [hstop, hle, if_true]
              omega
            · simp only [hstop, hle, if_true, if_false]
              omega
          · simp only [hstop, if_false]
            have hrec := ih (iter + 1) (llmCalls + 1)
              (processBlocks env.callTool r.content r.content conv resp
                false false tc).toolCalls
              (processBlocks env.callTool r.content r.content conv resp
                false false tc).conv
              (processBlocks env.callTool r.content r.content conv resp
                false false tc).resp
            have := hpb.2
            omega

theorem processBlocksE_correlated
    (ct : Nat → String → Json → Except Error ToolResult)
    (allContent : List ContentBlock) (base : List Message) :
    ∀ (blocks : List ContentBlock) (conv : List Message) (resp : String)
      (htu added : Bool) (tc : Nat) (evs : List AgentEvent),
    (∀ b ∈ blocks, b ∈ allContent) →
    (added = true → (⟨Role.assistant, allContent⟩ : Message) ∈ conv) →
    appendedCorrelated base conv →
    appendedCorrelated base
      (processBlocksE ct allContent blocks conv resp htu added tc evs).conv ∧
    ((processBlocksE ct allContent blocks conv resp htu added tc evs).added =
        true →
      (⟨Role.assistant, allContent⟩ : Message) ∈
        (processBlocksE ct allContent blocks conv resp htu added tc
          evs).conv) := by
  intro blocks
  induction blocks with
  | nil =>
    intro conv resp htu added tc evs _ hAdd hGood
    exact ⟨hGood, hAdd⟩
  | cons b bs ih =>
    intro conv resp htu added tc evs hBlocks hAdd hGood
    have hBlocks' : ∀ x ∈ bs, x ∈ allContent := fun x hx =>
      hBlocks x (List.mem_cons_of_mem b hx)
    cases b with
    | text t =>
      simpa [processBlocksE] using
        ih conv (resp ++ t) htu added tc (evs ++ [AgentEvent.textChunk t])
          hBlocks' hAdd hGood
    | toolUse tid nm inp =>
      have hBlk : ContentBlock.toolUse tid nm inp ∈ allContent :=
        hBlocks _ (List.mem_cons_self _ _)
      have hstep : ∀ (conv2 : List Message) (evs1 : List AgentEvent),
          (⟨Role.assistant, allContent⟩ : Message) ∈ conv2 →
          appendedCorrelated base conv2 →
          appendedCorrelated base
            (processBlocksE ct allContent bs conv2 resp true true (tc + 1)
              evs1).conv ∧
          ((processBlocksE ct allContent bs conv2 resp true true (tc + 1)
              evs1).added = true →
            (⟨Role.assistant, allContent⟩ : Message) ∈
              (processBlocksE ct allContent bs conv2 resp true true (tc + 1)
                evs1).conv) := by
        intro conv2 evs1 hA2 hGood2
        exact ih conv2 resp true true (tc + 1) evs1 hBlocks' (fun _ => hA2)
          hGood2
      cases added with
      | true =>
        have hA : (⟨Role.assistant, allContent⟩ : Message) ∈ conv := hAdd rfl
        cases hct : ct tc nm inp with
        | ok tr =>
          have hGood2 := appendedCorrelated_snoc base conv _ hGood
            (resultOk_wrapper conv allContent tid nm inp tr.content
              tr.is_error hA hBlk)
          have hA2 : (⟨Role.assistant, allContent⟩ : Message) ∈
              conv ++
                [⟨Role.user,
                  [ContentBlock.toolResult tid tr.content tr.is_error]⟩] :=
            List.mem_append_left _ hA
          simpa [processBlocksE, hct] using hstep _ _ hA2 hGood2
        | error e =>
          have hGood2 := appendedCorrelated_snoc base conv _ hGood
            (resultOk_wrapper conv allContent tid nm inp
              [ResultContent.text ("Error: " ++ e.toMessage)] (some true) hA
              hBlk)
          have hA2 : (⟨Role.assistant, allContent⟩ : Message) ∈
              conv ++
                [⟨Role.user,
                  [ContentBlock.toolResult tid
                    [ResultContent.text ("Error: " ++ e.toMessage)]
                    (some true)]⟩] :=
            List.mem_append_left _ hA
          simpa [processBlocksE, hct] using hstep _ _ hA2 hGood2
      | false =>
        have hGood1 : appendedCorrelated base
            (conv ++ [⟨Role.assistant, allContent⟩]) :=
          appendedCorrelated_snoc base conv _ hGood
            (resultOk_assistant conv allContent)
        have hA1 : (⟨Role.assistant, allContent⟩ : Message) ∈
            conv ++ [⟨Role.assistant, allContent⟩] :=
          List.mem_append_right _ (List.mem_singleton.mpr rfl)
        cases hct : ct tc nm inp with
        | ok tr =>
          have heq : conv ++
              [(⟨Role.assistant, allContent⟩ : Message),
               ⟨Role.user,
                [ContentBlock.toolResult tid tr.content tr.is_error]⟩] =
              (conv ++ [⟨Role.assistant, allContent⟩]) ++
                [⟨Role.user,
                  [ContentBlock.toolResult tid tr.content tr.is_error]⟩] := by
            simp
          have hGood2 : appendedCorrelated base
              (conv ++
                [(⟨Role.assistant, allContent⟩ : Message),
                 ⟨Role.user,
                  [ContentBlock.toolResult tid tr.content tr.is_error]⟩]) := by
            rw [heq]
            exact appendedCorrelated_snoc base _ _ hGood1
              (resultOk_wrapper _ allContent tid nm inp tr.content
                tr.is_error hA1 hBlk)
          have hA2 : (⟨Role.assistant, allContent⟩ : Message) ∈
              conv ++
                [(⟨Role.assistant, allContent⟩ : Message),
                 ⟨Role.user,
                  [ContentBlock.toolResult tid tr.content tr.is_error]⟩] := by
            simp
          simpa [processBlocksE, hct] using hstep _ _ hA2 hGood2
        | error e =>
          have heq : conv ++
              [(⟨Role.assistant, allContent⟩ : Message),
               ⟨Role.user,
                [ContentBlock.toolResult tid
                  [ResultContent.text ("Error: " ++ e.toMessage)]
                  (some true)]⟩] =
              (conv ++ [⟨Role.assistant, allContent⟩]) ++
                [⟨Role.user,
                  [ContentBlock.toolResult tid
                    [ResultContent.text ("Error: " ++ e.toMessage)]
                    (some true)]⟩] := by
            simp
          have hGood2 : appendedCorrelated base
              (conv ++
                [(⟨Role.assistant, allContent⟩ : Message),
                 ⟨Role.user,
                  [ContentBlock.toolResult tid
                    [ResultContent.text ("Error: " ++ e.toMessage)]
                    (some true)]⟩]) := by
            rw [heq]
            exact appendedCorrelated_snoc base _ _ hGood1
              (resultOk_wrapper _ allContent tid nm inp
                [ResultContent.text ("Error: " ++ e.toMessage)] (some true)
                hA1 hBlk)
          have hA2 : (⟨Role.assistant, allContent⟩ : Message) ∈
              conv ++
                [(⟨Role.assistant, allContent⟩ : Message),
                 ⟨Role.user,
                  [ContentBlock.toolResult tid
                    [ResultContent.text ("Error: " ++ e.toMessage)]
                    (some true)]⟩] := by
            simp
          simpa [processBlocksE, hct] using hstep _ _ hA2 hGood2
    | toolResult a c ie =>
      simpa [processBlocksE] using
        ih conv resp htu added tc evs hBlocks' hAdd hGood
    | image src =>
      simpa [processBlocksE] using
        ih conv resp htu added tc evs hBlocks' hAdd hGood

theorem processBlocksE_count
    (ct : Nat → String → Json → Except Error ToolResult)
    (allContent : List ContentBlock) :
    ∀ (blocks : List ContentBlock) (conv : List Message) (resp : String)
      (htu added : Bool) (tc : Nat) (evs : List AgentEvent),
    (added = true →
      (processBlocksE ct allContent blocks conv resp htu added tc
          evs).added = true ∧
      assistCount
          (processBlocksE ct allContent blocks conv resp htu added tc
            evs).conv = assistCount conv) ∧
    (added = false →
      ((processBlocksE ct allContent blocks conv resp htu added tc
            evs).added = false →
        assistCount
            (processBlocksE ct allContent blocks conv resp htu added tc
              evs).conv = assistCount conv) ∧
      assistCount
          (processBlocksE ct allContent blocks conv resp htu added tc
            evs).conv ≤ assistCount conv + 1) := by
  intro blocks
  induction blocks with
  | nil =>
    intro conv resp htu added tc evs
    constructor
    · intro ha
      exact ⟨by simp [processBlocksE, ha], by simp [processBlocksE]⟩
    · intro ha
      exact ⟨fun _ => by simp [processBlocksE], by simp [processBlocksE]⟩
  | cons b bs ih =>
    intro conv resp htu added tc evs
    cases b with
    | text t =>
      simpa [processBlocksE] using
        ih conv (resp ++ t) htu added tc (evs ++ [AgentEvent.textChunk t])
    | toolUse tid nm inp =>
      have hstep_true : ∀ (w : Message) (evs1 : List AgentEvent),
          w.role = Role.user →
          (processBlocksE ct allContent bs (conv ++ [w]) resp true true
              (tc + 1) evs1).added = true ∧
          assistCount
              (processBlocksE ct allContent bs (conv ++ [w]) resp true true
                (tc + 1) evs1).conv = assistCount conv := by
        intro w evs1 hw
        have h2 := (ih (conv ++ [w]) resp true true (tc + 1) evs1).1 rfl
        refine ⟨h2.1, ?_⟩
        rw [h2.2, assistCount_snoc, hw]
        simp
      cases added with
      | true =>
        cases hct : ct tc nm inp with
        | ok tr =>
          have := hstep_true
            ⟨Role.user, [ContentBlock.toolResult tid tr.content tr.is_error]⟩
            ((evs ++ [AgentEvent.toolCallStarted nm]) ++
              [AgentEvent.toolCallCompleted nm (resultText tr.content)]) rfl
          refine ⟨fun _ => ?_, fun hfalse => Bool.noConfusion hfalse⟩
          simpa [processBlocksE, hct] using this
        | error e =>
          have := hstep_true
            ⟨Role.user,
              [ContentBlock.toolResult tid
                [ResultContent.text ("Error: " ++ e.toMessage)] (some true)]⟩
            ((evs ++ [AgentEvent.toolCallStarted nm]) ++
              [AgentEvent.toolCallFailed nm e.toMessage]) rfl
          refine ⟨fun _ => ?_, fun hfalse => Bool.noConfusion hfalse⟩
          simpa [processBlocksE, hct] using this
      | false =>
        have hstep_false : ∀ (w : Message) (evs1 : List AgentEvent),
            w.role = Role.user →
            (processBlocksE ct allContent bs
                (conv ++ [⟨Role.assistant, allContent⟩, w]) resp true true
                (tc + 1) evs1).added = true ∧
            assistCount
                (processBlocksE ct allContent bs
                  (conv ++ [⟨Role.assistant, allContent⟩, w]) resp true true
                  (tc + 1) evs1).conv = assistCount conv + 1 := by
          intro w evs1 hw
          have h2 := (ih (conv ++ [⟨Role.assistant, allContent⟩, w]) resp
            true true (tc + 1) evs1).1 rfl
          refine ⟨h2.1, ?_⟩
          rw [h2.2]
          rw [show conv ++ [(⟨Role.assistant, allContent⟩ : Message), w] =
              (conv ++ [⟨Role.assistant, allContent⟩]) ++ [w] from by simp]
          rw [assistCount_snoc, assistCount_snoc, hw]
          simp
        cases hct : ct tc nm inp with
        | ok tr =>
          have hs := hstep_false
            ⟨Role.user, [ContentBlock.toolResult tid tr.content tr.is_error]⟩
            ((evs ++ [AgentEvent.toolCallStarted nm]) ++
              [AgentEvent.toolCallCompleted nm (resultText tr.content)]) rfl
          refine ⟨fun htrue => Bool.noConfusion htrue, fun _ => ⟨?_, ?_⟩⟩
          · intro hof
            exfalso
            have : (processBlocksE ct allContent
                (ContentBlock.toolUse tid nm inp :: bs) conv resp htu false
                tc evs).added = true := by
              simpa [processBlocksE, hct] using hs.1
            rw [this] at hof
            cases hof
          · have : assistCount (processBlocksE ct allContent
                (ContentBlock.toolUse tid nm inp :: bs) conv resp htu false
                tc evs).conv = assistCount conv + 1 := by
              simpa [processBlocksE, hct] using hs.2
            omega
        | error e =>
          have hs := hstep_false
            ⟨Role.user,
              [ContentBlock.toolResult tid
                [ResultContent.text ("Error: " ++ e.toMessage)] (some true)]⟩
            ((evs ++ [AgentEvent.toolCallStarted nm]) ++
              [AgentEvent.toolCallFailed nm e.toMessage]) rfl
          refine ⟨fun htrue => Bool.noConfusion htrue, fun _ => ⟨?_, ?_⟩⟩
          · intro hof
            exfalso
            have : (processBlocksE ct allContent
                (ContentBlock.toolUse tid nm inp :: bs) conv resp htu false
                tc evs).added = true := by
              simpa [processBlocksE, hct] using hs.1
            rw [this] at hof
            cases hof
          · have : assistCount (processBlocksE ct allContent
                (ContentBlock.toolUse tid nm inp :: bs) conv resp htu false
                tc evs).conv = assistCount conv + 1 := by
              simpa [processBlocksE, hct] using hs.2
            omega
    | toolResult a c ie =>
      simpa [processBlocksE] using ih conv resp htu added tc evs
    | image src =>
      simpa [processBlocksE] using ih conv resp htu added tc evs

theorem agentLoopE_correlated (env : Env) (maxIter : Nat)
    (dis : List String) (base : List Message) :
    ∀ (fuel iter llmCalls tc : Nat) (conv : List Message) (resp : String)
      (evs : List AgentEvent),
    appendedCorrelated base conv →
    appendedCorrelated base
      (agentLoopE env maxIter dis fuel iter llmCalls tc conv resp
        evs).conv := by
  intro fuel
  induction fuel with
  | zero =>
    intro iter llmCalls tc conv resp evs hGood
    simpa [agentLoopE] using hGood
  | succ f ih =>
    intro iter llmCalls tc conv resp evs hGood
    simp only [agentLoopE]
    cases hlt : env.listTools (iter + 1) with
    | error e => simpa using hGood
    | ok allTools =>
      simp only []
      cases hllm : env.llm (iter + 1) conv
          (allTools.filter fun t => !(dis.contains t.name)) with
      | error e => simpa using hGood
      | ok r =>
        simp only []
        have hpb := processBlocksE_correlated env.callTool r.content base
          r.content conv resp false false tc
          (evs ++ [AgentEvent.llmCall (iter + 1)]) (fun _ hb => hb)
          (fun h => Bool.noConfusion h) hGood
        by_cases hstop :
            (processBlocksE env.callTool r.content r.content conv resp
              false false tc
              (evs ++ [AgentEvent.llmCall (iter + 1)])).hasToolUse = false ∨
            r.stop_reason = StopReason.endTurn
        · have hGood2 : appendedCorrelated base
              (if (processBlocksE env.callTool r.content r.content conv resp
                  false false tc
                  (evs ++ [AgentEvent.llmCall (iter + 1)])).added = true then
                (processBlocksE env.callTool r.content r.content conv resp
                  false false tc
                  (evs ++ [AgentEvent.llmCall (iter + 1)])).conv
              else
                (processBlocksE env.callTool r.content r.content conv resp
                  false false tc
                  (evs ++ [AgentEvent.llmCall (iter + 1)])).conv ++
                  [⟨Role.assistant, r.content⟩]) := by
            by_cases hadd : (processBlocksE env.callTool r.content r.content
                conv resp false false tc
                (evs ++ [AgentEvent.llmCall (iter + 1)])).added = true
            · simpa [hadd] using hpb.1
            · rw [if_neg hadd]
              exact appendedCorrelated_snoc base _ _ hpb.1
                (resultOk_assistant _ r.content)
          by_cases hle : maxIter ≤ iter + 1
          · simpa [hstop, hle] using hGood2
          · simpa [hstop, hle] using hGood2
        · simp only [hstop, if_false]
          exact ih (iter + 1) (llmCalls + 1) _ _ _ _ hpb.1

theorem agentLoopE_count (env : Env) (maxIter : Nat) (dis : List String) :
    ∀ (fuel iter llmCalls tc : Nat) (conv : List Message) (resp : String)
      (evs : List AgentEvent),
    assistCount
        (agentLoopE env maxIter dis fuel iter llmCalls tc conv resp
          evs).conv + llmCalls ≤
    assistCount conv +
      (agentLoopE env maxIter dis fuel iter llmCalls tc conv resp
        evs).llmCalls := by
  intro fuel
  induction fuel with
  | zero =>
    intro iter llmCalls tc conv resp evs
    simp [agentLoopE]
  | succ f ih =>
    intro iter llmCalls tc conv resp evs
    simp only [agentLoopE]
    cases hlt : env.listTools (iter + 1) with
    | error e => simp
    | ok allTools =>
      simp only []
      cases hllm : env.llm (iter + 1) conv
          (allTools.filter fun t => !(dis.contains t.name)) with
      | error e => simp
      | ok r =>
        simp only []
        have hpb := (processBlocksE_count env.callTool r.content r.content
          conv resp false false tc
          (evs ++ [AgentEvent.llmCall (iter + 1)])).2 rfl
        by_cases hstop :
            (processBlocksE env.callTool r.content r.content conv resp
              false false tc
              (evs ++ [AgentEvent.llmCall (iter + 1)])).hasToolUse = false ∨
            r.stop_reason = StopReason.endTurn
        · have hconv2 : assistCount
              (if (processBlocksE env.callTool r.content r.content conv resp
                  false false tc
                  (evs ++ [AgentEvent.llmCall (iter + 1)])).added = true then
                (processBlocksE env.callTool r.content r.content conv resp
                  false false tc
                  (evs ++ [AgentEvent.llmCall (iter + 1)])).conv
              else
                (processBlocksE env.callTool r.content r.content conv resp
                  false false tc
                  (evs ++ [AgentEvent.llmCall (iter + 1)])).conv ++
                  [⟨Role.assistant, r.content⟩]) ≤ assistCount conv + 1 := by
            by_cases hadd : (processBlocksE env.callTool r.content r.content
                conv resp false false tc
                (evs ++ [AgentEvent.llmCall (iter + 1)])).added = true
            · rw [if_pos hadd]
              exact hpb.2
            · rw [if_neg hadd, assistCount_snoc]
              have heq := hpb.1 (by simpa using hadd)
              simp [heq]
          by_cases hle : maxIter ≤ iter + 1
          · simp only [hstop, hle, if_true]
            omega
          · simp only [hstop, hle, if_true, if_false]
            omega
        · simp only [hstop, if_false]
          have hrec := ih (iter + 1) (llmCalls + 1)
            (processBlocksE env.callTool r.content r.content conv resp
              false false tc
              (evs ++ [AgentEvent.llmCall (iter + 1)])).toolCalls
            (processBlocksE env.callTool r.content r.content conv resp
              false false tc
              (evs ++ [AgentEvent.llmCall (iter + 1)])).conv
            (processBlocksE env.callTool r.content r.content conv resp
              false false tc
              (evs ++ [AgentEvent.llmCall (iter + 1)])).resp
            ((processBlocksE env.callTool r.content r.content conv resp
              false false tc
              (evs ++ [AgentEvent.llmCall (iter + 1)])).events ++
              [AgentEvent.iterationComplete (iter + 1)])
          have := hpb.2
          omega

/-- C9: in every conversation produced by either run variant, every
ToolInvocationResult block the agent appends sits in a User message of
exactly one block whose correlation id matches a ToolInvocationRequest block
of a prior Assistant message of the same conversation, and at most one
Assistant message is appended per LLM turn (the number of appended Assistant
messages never exceeds the number of LLM calls). -/
theorem claim_C9 (env : Env) (maxIter : Nat) (dis : List String)
    (conv0 : List Message) (prompt : String) :
    appendedCorrelated conv0 (agentRun env maxIter dis conv0 prompt).conv ∧
    assistCount (agentRun env maxIter dis conv0 prompt).conv ≤
      assistCount conv0 + (agentRun env maxIter dis conv0 prompt).llmCalls ∧
    appendedCorrelated conv0
      (agentRunWithEvents env maxIter dis conv0 prompt).conv ∧
    assistCount (agentRunWithEvents env maxIter dis conv0 prompt).conv ≤
      assistCount conv0 +
        (agentRunWithEvents env maxIter dis conv0 prompt).llmCalls := by
  have hbase : appendedCorrelated conv0 (conv0 ++ [Message.user prompt]) :=
    appendedCorrelated_snoc conv0 conv0 _ (appendedCorrelated_self conv0)
      (resultOk_user_text conv0 prompt)
  have hcnt0 : assistCount (conv0 ++ [Message.user prompt]) =
      assistCount conv0 := by
    rw [assistCount_snoc]
    simp [Message.user]
  refine ⟨?_, ?_, ?_, ?_⟩
  · exact agentLoop_correlated env maxIter dis conv0 maxIter 0 0 0
      (conv0 ++ [Message.user prompt]) "" hbase
  · have h := agentLoop_count env maxIter dis maxIter 0 0 0
      (conv0 ++ [Message.user prompt]) ""
    rw [hcnt0] at h
    show assistCount (agentLoop env maxIter dis maxIter 0 0 0
        (conv0 ++ [Message.user prompt]) "").conv ≤
      assistCount conv0 + (agentLoop env maxIter dis maxIter 0 0 0
        (conv0 ++ [Message.user prompt]) "").llmCalls
    omega
  · exact agentLoopE_correlated env maxIter dis conv0 maxIter 0 0 0
      (conv0 ++ [Message.user prompt]) "" [AgentEvent.started] hbase
  · have h := agentLoopE_count env maxIter dis maxIter 0 0 0
      (conv0 ++ [Message.user prompt]) "" [AgentEvent.started]
    rw [hcnt0] at h
    show assistCount (agentLoopE env maxIter dis maxIter 0 0 0
        (conv0 ++ [Message.user prompt]) "" [AgentEvent.started]).conv ≤
      assistCount conv0 + (agentLoopE env maxIter dis maxIter 0 0 0
        (conv0 ++ [Message.user prompt]) "" [AgentEvent.started]).llmCalls
    omega

end Mcp
